import Mathlib

/-!
# Verification of the ai-trading-coach lifecycle / rule-detection core

Shallow embedding of the repository's core computation:

* `src/ai_trading_coach/domain/trade_lifecycle.py` — data model and
  `TradeLifecycle.recompute`;
* `src/ai_trading_coach/pipeline/aggregate_lifecycles.py` —
  `aggregate_fills_to_lifecycles`;
* `src/ai_trading_coach/analysis/events.py` — `detect_events_for_lifecycle`
  and `detect_events_for_lifecycles`;
* `src/ai_trading_coach/reports/generator.py` — `compute_discipline_score`.

Modelling conventions:

* Python `Decimal` is modelled as `ℚ` (exact arithmetic; the code's own design
  notes require exact base-10 arithmetic, and no verified claim depends on the
  28-digit context rounding of `decimal`).
* `datetime` is modelled as an integer timestamp (`Int`, seconds); the code
  only compares timestamps, subtracts them (`holding_seconds`) and passes them
  through, so a totally ordered integer clock is faithful.
* Python's stable `sorted(..., key=ts)` is modelled by a stable insertion
  sort `sortByTs` (same output: the unique stable ascending reordering).
* The timezone conversion of `events.py` (`astimezone(ZoneInfo(...))`, which
  may raise) is modelled as an explicit parameter
  `tz : Int → Option (Nat × Nat)` giving the US-Eastern local (hour, minute)
  of a timestamp, `none` representing a conversion failure (or an absent
  `zoneinfo` module); the code catches the failure and emits nothing.
* Presentational constants (the Chinese catalog strings `name_zh` /
  `definition_zh` / `logic_zh`) and fields of the data model that the verified
  core never reads (thesis, notes, emotion tags, raw payloads, …) are omitted;
  every field that any modelled code path reads or writes is present.
-/

/-! ## Data model (`domain/trade_lifecycle.py`) -/

/-- `PositionSide` — long/short direction of a lifecycle or fill hold side. -/
inductive PositionSide where
  | long
  | short
  | unknown
deriving DecidableEq, Repr

/-- Execution side on the exchange (`side: Literal["buy", "sell"]`). -/
inductive Side where
  | buy
  | sell
deriving DecidableEq, Repr

/-- `trade_side: Literal["open", "close", "unknown"]` (Bitget open/close tag).
`open` is a Lean keyword, so the constructor is spelled `open_`. -/
inductive TradeSide where
  | open_
  | close
  | unknown
deriving DecidableEq, Repr

/-- Lifecycle `status: Literal["open", "closed"]`. -/
inductive Status where
  | open_
  | closed
deriving DecidableEq, Repr

/-- `ExecutionFill`: one exchange execution.  Fields the core never reads
(`symbol`, `fee_currency`, `maker_taker`, `pos_mode`, `exchange`, `raw`) are
omitted; `trade_id` / `order_id` are kept because event evidence carries them. -/
structure ExecutionFill where
  ts : Int
  side : Side
  price : ℚ
  amount : ℚ
  fee_cost : ℚ := 0
  trade_side : TradeSide := TradeSide.unknown
  reported_profit_usdt : Option ℚ := none
  hold_side : PositionSide := PositionSide.unknown
  trade_id : Option String := none
  order_id : Option String := none
deriving DecidableEq, Repr

/-- `TradePlan`: subjective planned inputs.  Only `planned_stop_loss` is read
by the verified core (recompute and the stop-loss rule); the other planned
fields are never read and are omitted. -/
structure TradePlan where
  planned_stop_loss : Option ℚ := none
deriving DecidableEq, Repr

/-- `TradeMetrics`: derived metrics, all defaulting to `None` / `0` exactly as
in the pydantic model. -/
structure TradeMetrics where
  entry_ts : Option Int := none
  exit_ts : Option Int := none
  holding_seconds : Option Int := none
  entry_avg_price : Option ℚ := none
  exit_avg_price : Option ℚ := none
  max_abs_position_amount : Option ℚ := none
  max_abs_notional_usdt : Option ℚ := none
  realized_pnl_usdt : Option ℚ := none
  realized_pnl_pct : Option ℚ := none
  realized_pnl_pct_of_available_margin : Option ℚ := none
  total_fees_usdt : Option ℚ := none
  total_funding_usdt : Option ℚ := none
  available_margin_usdt_at_entry : Option ℚ := none
  equity_usdt_at_entry : Option ℚ := none
  fills_count : Nat := 0
  adds_count : Nat := 0
  reductions_count : Nat := 0
deriving DecidableEq, Repr

/-- The all-defaults `TradeMetrics()` value (what `TradeMetrics(fills_count=0)`
constructs in the empty-fills branch of `recompute`). -/
def TradeMetrics.default0 : TradeMetrics := {}

/-- `RiskMetrics`: only `planned_stop_loss` is ever read or written by the
modelled code (`recompute` copies `plan.planned_stop_loss` into it); the
MAE/MFE and r-multiple fields are never touched and are omitted. -/
structure RiskMetrics where
  planned_stop_loss : Option ℚ := none
deriving DecidableEq, Repr

/-- `TradeLifecycle`: one position lifecycle.  Unread constant fields
(`contract_kind`, `margin_currency`, `leverage`, `emotion_tags`, …) omitted. -/
structure TradeLifecycle where
  lifecycle_id : String
  exchange : String := "bitget"
  symbol : String
  position_side : PositionSide
  fills : List ExecutionFill := []
  funding_payments_usdt : List (Int × ℚ) := []
  plan : TradePlan := {}
  metrics : TradeMetrics := {}
  risk : RiskMetrics := {}
  status : Status := Status.open_
deriving DecidableEq, Repr

/-! ## Stable sort by timestamp

Python's `sorted(fills, key=lambda f: f.ts)` is a stable ascending sort.  A
stable insertion sort produces the identical list: each element is inserted
after every already-placed element whose key is `≤` its own, so elements with
equal keys keep their original relative order. -/

/-- Insert `f` into `l` after every element whose timestamp is `≤ f.ts`. -/
def insertByTs (f : ExecutionFill) : List ExecutionFill → List ExecutionFill
  | [] => [f]
  | g :: gs => if g.ts ≤ f.ts then g :: insertByTs f gs else f :: g :: gs

/-- Stable ascending sort by `ts` (model of `sorted(fills, key=ts)`). -/
def sortByTs (l : List ExecutionFill) : List ExecutionFill :=
  l.foldl (fun acc f => insertByTs f acc) []

/-! ## `TradeLifecycle.recompute` (`trade_lifecycle.py` lines 178-322) -/

/-- `total_fees = sum((f.fee_cost for f in fills_sorted), Decimal("0"))` (line 193). -/
def totalFees (fills : List ExecutionFill) : ℚ :=
  fills.foldl (fun acc f => acc + f.fee_cost) 0

/-- `total_funding = sum((amt for _, amt in self.funding_payments_usdt), Decimal("0"))`
(line 194). -/
def totalFunding (funding : List (Int × ℚ)) : ℚ :=
  funding.foldl (fun acc p => acc + p.2) 0

/-- The mutable state of the position-tracking loop of `recompute`
(lines 203-208): signed position, high-water mark of `|pos|`, volume-weighted
average entry, internally accumulated realized PnL, sum of exchange-reported
profits, and whether any fill reported a profit. -/
structure PosState where
  pos : ℚ
  max_abs_pos : ℚ
  avg_entry : ℚ
  realized : ℚ
  realized_reported : ℚ
  has_reported : Bool
deriving DecidableEq, Repr

/-- Initial loop state (lines 203-208). -/
def PosState.init : PosState :=
  { pos := 0, max_abs_pos := 0, avg_entry := 0, realized := 0
    realized_reported := 0, has_reported := false }

/-- One iteration of the position-tracking loop of `recompute`
(lines 210-254), processing fill `f` from state `s`. -/
def posStep (s : PosState) (f : ExecutionFill) : PosState :=
  let realized_reported :=
    match f.reported_profit_usdt with
    | some p => s.realized_reported + p
    | none => s.realized_reported
  let has_reported := s.has_reported || f.reported_profit_usdt.isSome
  let qty := f.amount
  let px := f.price
  let delta := if f.side = Side.buy then qty else -qty
  let prev_pos := s.pos
  if prev_pos = 0 ∨ (prev_pos > 0 ∧ delta > 0) ∨ (prev_pos < 0 ∧ delta < 0) then
    -- same-direction add (lines 220-228)
    let new_pos := prev_pos + delta
    let avg_entry :=
      if prev_pos = 0 then px
      else (s.avg_entry * |prev_pos| + px * |delta|) / |new_pos|
    { pos := new_pos
      max_abs_pos := max s.max_abs_pos |new_pos|
      avg_entry := avg_entry
      realized := s.realized
      realized_reported := realized_reported
      has_reported := has_reported }
  else
    -- reducing or reversing (lines 229-252)
    let close_qty := min |prev_pos| |delta|
    let realized :=
      if prev_pos > 0 ∧ delta < 0 then s.realized + (px - s.avg_entry) * close_qty
      else if prev_pos < 0 ∧ delta > 0 then s.realized + (s.avg_entry - px) * close_qty
      else s.realized
    let pos1 := if prev_pos > 0 then prev_pos - close_qty else prev_pos + close_qty
    let remaining := |delta| - close_qty
    let pos2 := if remaining > 0 then (if delta > 0 then (1 : ℚ) else -1) * remaining else pos1
    let avg_entry := if remaining > 0 then px else s.avg_entry
    { pos := pos2
      max_abs_pos := max s.max_abs_pos |pos2|
      avg_entry := avg_entry
      realized := realized
      realized_reported := realized_reported
      has_reported := has_reported }

/-- `wavg_price_by_trade_side` (lines 260-270): amount-weighted average price
over the fills tagged with trade side `t`; `none` when their total amount is 0. -/
def wavg_price_by_trade_side (t : TradeSide) (fills : List ExecutionFill) : Option ℚ :=
  let px_qty := (fills.filter (fun f => f.trade_side = t)).foldl
    (fun acc f => acc + f.price * f.amount) 0
  let qty := (fills.filter (fun f => f.trade_side = t)).foldl
    (fun acc f => acc + f.amount) 0
  if qty = 0 then none else some (px_qty / qty)

/-- Maximum of the per-fill notionals `|amount * price|` (line 197-198);
`none` for an empty fill list (`max(notionals) if notionals else None`). -/
def maxNotional : List ExecutionFill → Option ℚ
  | [] => none
  | f :: fs => some (fs.foldl (fun acc g => max acc |g.amount * g.price|) |f.amount * f.price|)

/-- The whole metrics computation of `recompute` for a nonempty fill list
(lines 187-319), as a pure function of the fills, the funding payments, the
lifecycle status and the two snapshot fields that are passed through
(`available_margin_usdt_at_entry`, `equity_usdt_at_entry`).  The `[]` case is
unreachable from `recomputeLC` (which handles empty fills separately, as the
Python does with its early return). -/
def computeMetrics (fills : List ExecutionFill) (funding : List (Int × ℚ))
    (status : Status) (snapAvail snapEquity : Option ℚ) : TradeMetrics :=
  match sortByTs fills with
  | [] => TradeMetrics.default0
  | f0 :: rest =>
    let fills_sorted := f0 :: rest
    let entry_ts := f0.ts
    let exit_ts : Option Int :=
      if status = Status.closed then some (rest.getLastD f0).ts else none
    let holding_seconds : Option Int :=
      match exit_ts with
      | some e => some (e - entry_ts)
      | none => none
    let total_fees := totalFees fills_sorted
    let total_funding := totalFunding funding
    let max_abs_notional := maxNotional fills_sorted
    let st := fills_sorted.foldl posStep PosState.init
    let max_abs_amount : Option ℚ :=
      if st.max_abs_pos ≠ 0 then some st.max_abs_pos else none
    let entry_avg := wavg_price_by_trade_side TradeSide.open_ fills_sorted
    let exit_avg :=
      if status = Status.closed then wavg_price_by_trade_side TradeSide.close fills_sorted
      else none
    let realized_pnl : Option ℚ :=
      if status = Status.closed then
        some ((if st.has_reported then st.realized_reported else st.realized)
          - total_fees + total_funding)
      else none
    let realized_pct : Option ℚ :=
      match realized_pnl, max_abs_notional with
      | some pnl, some n => if n ≠ 0 then some (pnl / n * 100) else none
      | _, _ => none
    let realized_pct_of_margin : Option ℚ :=
      match realized_pnl, snapAvail with
      | some pnl, some m => if m ≠ 0 then some (pnl / m * 100) else none
      | _, _ => none
    let adds := (fills_sorted.filter (fun f => f.trade_side = TradeSide.open_)).length
    let reductions := (fills_sorted.filter (fun f => f.trade_side = TradeSide.close)).length
    { entry_ts := some entry_ts
      exit_ts := exit_ts
      holding_seconds := holding_seconds
      entry_avg_price := entry_avg
      exit_avg_price := exit_avg
      max_abs_position_amount := max_abs_amount
      max_abs_notional_usdt := max_abs_notional
      realized_pnl_usdt := realized_pnl
      realized_pnl_pct := realized_pct
      realized_pnl_pct_of_available_margin := realized_pct_of_margin
      total_fees_usdt := some total_fees
      total_funding_usdt := some total_funding
      available_margin_usdt_at_entry := snapAvail
      equity_usdt_at_entry := snapEquity
      fills_count := fills_sorted.length
      adds_count := adds
      reductions_count := reductions }

/-- `TradeLifecycle.recompute` as a pure lifecycle transformer.  Empty fills:
fresh default metrics and an early return (risk untouched).  Nonempty fills:
metrics recomputed from (fills, funding, status, snapshot passthrough) and
`risk.planned_stop_loss := plan.planned_stop_loss` (line 322). -/
def recomputeLC (lc : TradeLifecycle) : TradeLifecycle :=
  if lc.fills = [] then
    { lc with metrics := TradeMetrics.default0 }
  else
    { lc with
      metrics := computeMetrics lc.fills lc.funding_payments_usdt lc.status
        lc.metrics.available_margin_usdt_at_entry lc.metrics.equity_usdt_at_entry
      risk := { lc.risk with planned_stop_loss := lc.plan.planned_stop_loss } }

/-! ## Basic lemmas about the stable sort and the position fold -/

/-- The chronological-order predicate used by Python's `sorted(..., key=ts)`. -/
def tsLE (a b : ExecutionFill) : Prop := a.ts ≤ b.ts

/-- Inserting an element whose timestamp dominates the whole list appends it. -/
theorem insertByTs_of_forall_le (f : ExecutionFill) :
    ∀ l : List ExecutionFill, (∀ g ∈ l, g.ts ≤ f.ts) → insertByTs f l = l ++ [f] := by
  intro l
  induction l with
  | nil => intro _; rfl
  | cons g gs ih =>
    intro h
    have hg : g.ts ≤ f.ts := h g (by simp)
    simp only [insertByTs, if_pos hg, List.cons_append, List.cons.injEq, true_and]
    exact ih (fun x hx => h x (by simp [hx]))

/-- Folding `insertByTs` over an already chronologically ordered tail extends
the accumulator verbatim. -/
theorem foldl_insertByTs_sorted :
    ∀ (l acc : List ExecutionFill), (acc ++ l).Pairwise tsLE →
      l.foldl (fun a f => insertByTs f a) acc = acc ++ l := by
  intro l
  induction l with
  | nil => intro acc _; simp
  | cons x xs ih =>
    intro acc h
    have hacc : ∀ g ∈ acc, g.ts ≤ x.ts := by
      intro g hg
      have := (List.pairwise_append.mp h).2.2 g hg x (by simp)
      exact this
    have hins : insertByTs x acc = acc ++ [x] := insertByTs_of_forall_le x acc hacc
    have h' : ((acc ++ [x]) ++ xs).Pairwise tsLE := by
      simpa [List.append_assoc] using h
    calc (x :: xs).foldl (fun a f => insertByTs f a) acc
        = xs.foldl (fun a f => insertByTs f a) (insertByTs x acc) := rfl
      _ = xs.foldl (fun a f => insertByTs f a) (acc ++ [x]) := by rw [hins]
      _ = (acc ++ [x]) ++ xs := ih (acc ++ [x]) h'
      _ = acc ++ x :: xs := by simp

/-- A chronologically ordered fill list is a fixed point of `sortByTs`. -/
theorem sortByTs_eq_self (l : List ExecutionFill) (h : l.Pairwise tsLE) :
    sortByTs l = l := by
  simpa [sortByTs] using foldl_insertByTs_sorted l [] (by simpa using h)

/-- `insertByTs` grows the list by one element. -/
theorem insertByTs_length (f : ExecutionFill) :
    ∀ l : List ExecutionFill, (insertByTs f l).length = l.length + 1 := by
  intro l
  induction l with
  | nil => rfl
  | cons g gs ih =>
    by_cases hg : g.ts ≤ f.ts
    · simp [insertByTs, hg, ih]
    · simp [insertByTs, hg]

/-- `sortByTs` preserves length. -/
theorem sortByTs_length (l : List ExecutionFill) : (sortByTs l).length = l.length := by
  suffices h : ∀ (l acc : List ExecutionFill),
      (l.foldl (fun a f => insertByTs f a) acc).length = acc.length + l.length by
    simpa using h l []
  intro l
  induction l with
  | nil => intro acc; simp
  | cons x xs ih =>
    intro acc
    simp only [List.foldl_cons, ih, insertByTs_length, List.length_cons]
    omega

/-- `sortByTs` sends nonempty lists to nonempty lists. -/
theorem sortByTs_ne_nil {l : List ExecutionFill} (h : l ≠ []) : sortByTs l ≠ [] := by
  intro hs
  apply h
  have := sortByTs_length l
  rw [hs] at this
  exact List.length_eq_zero.mp this.symm

/-- Sum of the exchange-reported profit values carried by fills (the values
accumulated into `realized_reported` at lines 211-212). -/
def sumReportedProfits (fills : List ExecutionFill) : ℚ :=
  (fills.filterMap (fun f => f.reported_profit_usdt)).sum

/-- One `posStep` adds the fill's reported profit (if any) to
`realized_reported` and or-accumulates `has_reported`. -/
theorem posStep_reported (s : PosState) (f : ExecutionFill) :
    (posStep s f).realized_reported = s.realized_reported + (f.reported_profit_usdt.getD 0)
      ∧ (posStep s f).has_reported = (s.has_reported || f.reported_profit_usdt.isSome) := by
  unfold posStep
  cases hr : f.reported_profit_usdt <;>
    simp only [hr] <;> split <;> (try split) <;> simp

/-- The position fold accumulates exactly the sum of reported profits and the
disjunction of "some fill reported a profit". -/
theorem foldl_posStep_reported :
    ∀ (fills : List ExecutionFill) (s : PosState),
      (fills.foldl posStep s).realized_reported = s.realized_reported + sumReportedProfits fills
        ∧ (fills.foldl posStep s).has_reported =
            (s.has_reported || fills.any (fun f => f.reported_profit_usdt.isSome)) := by
  intro fills
  induction fills with
  | nil => intro s; simp [sumReportedProfits]
  | cons f fs ih =>
    intro s
    have h1 := posStep_reported s f
    constructor
    · have := (ih (posStep s f)).1
      rw [List.foldl_cons, this, h1.1]
      cases hr : f.reported_profit_usdt with
      | none => simp [sumReportedProfits, hr]
      | some p => simp [sumReportedProfits, hr]; ring
    · have := (ih (posStep s f)).2
      rw [List.foldl_cons, this, h1.2]
      cases hr : f.reported_profit_usdt <;> simp [hr, Bool.or_assoc]

/-- The signed delta a fill applies to the position in `recompute`
(line 216: `delta = qty if f.side == "buy" else -qty`). -/
def fillDelta (f : ExecutionFill) : ℚ :=
  if f.side = Side.buy then f.amount else -f.amount

/-- For a nonempty fill list, `computeMetrics` passes the attached
available-margin snapshot through unchanged. -/
theorem computeMetrics_avail (fills : List ExecutionFill) (funding : List (Int × ℚ))
    (status : Status) (a e : Option ℚ) (h : fills ≠ []) :
    (computeMetrics fills funding status a e).available_margin_usdt_at_entry = a := by
  cases hs : sortByTs fills with
  | nil => exact absurd hs (sortByTs_ne_nil h)
  | cons f0 rest => simp [computeMetrics, hs]

/-- For a nonempty fill list, `computeMetrics` passes the attached
equity snapshot through unchanged. -/
theorem computeMetrics_equity (fills : List ExecutionFill) (funding : List (Int × ℚ))
    (status : Status) (a e : Option ℚ) (h : fills ≠ []) :
    (computeMetrics fills funding status a e).equity_usdt_at_entry = e := by
  cases hs : sortByTs fills with
  | nil => exact absurd hs (sortByTs_ne_nil h)
  | cons f0 rest => simp [computeMetrics, hs]

/-! ## Concrete fills and lifecycles used in examples and witnesses -/

/-- Spec's reversal example, first fill: buy 10 @ 100. -/
def fillBuy10at100 : ExecutionFill :=
  { ts := 1, side := Side.buy, price := 100, amount := 10 }

/-- Spec's reversal example, second fill: sell 15 @ 110. -/
def fillSell15at110 : ExecutionFill :=
  { ts := 2, side := Side.sell, price := 110, amount := 15 }

/-- A fill carrying an exchange-reported profit (for the precedence claims). -/
def fillRep1 : ExecutionFill :=
  { ts := 1, side := Side.buy, price := 10, amount := 1, fee_cost := 1/2,
    reported_profit_usdt := some 3 }

/-- A second reported-profit fill. -/
def fillRep2 : ExecutionFill :=
  { ts := 2, side := Side.sell, price := 12, amount := 1,
    reported_profit_usdt := some (-1) }

/-- Closed two-fill lifecycle with reported profits and one funding payment. -/
def lcRep : TradeLifecycle :=
  { lifecycle_id := "lc-rep", symbol := "BTC/USDT:USDT",
    position_side := PositionSide.long,
    fills := [fillRep1, fillRep2], funding_payments_usdt := [(3, 2)],
    status := Status.closed }

/-! ## C1 — realized-PnL base precedence and the fees/funding formula -/

/-- C1: for a closed lifecycle with fills (given in chronological order), the
realized-PnL base is the sum of exchange-reported profits when any fill
reports one and otherwise the internal running total — never a blend — and
`realized_pnl_usdt = base − total_fees + total_funding`. -/
theorem realized_pnl_base_precedence (lc : TradeLifecycle)
    (hclosed : lc.status = Status.closed) (hne : lc.fills ≠ [])
    (hsorted : lc.fills.Pairwise tsLE) :
    (recomputeLC lc).metrics.realized_pnl_usdt =
      some ((if lc.fills.any (fun f => f.reported_profit_usdt.isSome)
              then sumReportedProfits lc.fills
              else (lc.fills.foldl posStep PosState.init).realized)
        - totalFees lc.fills + totalFunding lc.funding_payments_usdt) := by
  have hsort : sortByTs lc.fills = lc.fills := sortByTs_eq_self _ hsorted
  obtain ⟨f0, rest, hf⟩ : ∃ f0 rest, lc.fills = f0 :: rest := by
    cases h : lc.fills with
    | nil => exact absurd h hne
    | cons a l => exact ⟨a, l, rfl⟩
  have hrep := (foldl_posStep_reported lc.fills PosState.init).1
  have hany := (foldl_posStep_reported lc.fills PosState.init).2
  simp only [recomputeLC, computeMetrics]
  rw [hsort, hf]
  rw [hf] at hrep hany
  rw [show PosState.init.realized_reported = 0 from rfl, zero_add] at hrep
  rw [show PosState.init.has_reported = false from rfl, Bool.false_or] at hany
  simp only [if_neg (by simp : ¬(f0 :: rest = [])), hclosed, if_true]
  rw [hany, hrep]

/-- C1 witness: the precedence theorem applied to the concrete closed
lifecycle `lcRep` (all hypotheses discharged on concrete data). -/
theorem realized_pnl_base_precedence_witness :
    (recomputeLC lcRep).metrics.realized_pnl_usdt =
      some ((if lcRep.fills.any (fun f => f.reported_profit_usdt.isSome)
              then sumReportedProfits lcRep.fills
              else (lcRep.fills.foldl posStep PosState.init).realized)
        - totalFees lcRep.fills + totalFunding lcRep.funding_payments_usdt) :=
  realized_pnl_base_precedence lcRep rfl (by simp [lcRep])
    (by simp [lcRep, fillRep1, fillRep2, tsLE, List.pairwise_cons])

/-! ## C2 — opposite-direction fill accounting (close / reverse) -/

/-- C2: an opposite-direction fill against a nonzero position closes
`close_qty = min(|prev|, |delta|)`; realized PnL increases by
`(price − avg_entry)·close_qty` when a sell closes a long and by
`(avg_entry − price)·close_qty` when a buy closes a short; with an overshoot
(`close_qty < |delta|`) the remainder opens a reversed position at the fill's
price, otherwise the position just shrinks by `close_qty`.  The spec's
reversal example (long 10 @ 100, then sell 15 @ 110) yields internal realized
PnL 100 and a short 5 position with average entry 110. -/
theorem recompute_opposite_direction_fill (s : PosState) (f : ExecutionFill)
    (hopp : (0 < s.pos ∧ fillDelta f < 0) ∨ (s.pos < 0 ∧ 0 < fillDelta f)) :
    ((posStep s f).realized = s.realized +
        (if 0 < s.pos then (f.price - s.avg_entry) * min |s.pos| |fillDelta f|
         else (s.avg_entry - f.price) * min |s.pos| |fillDelta f|))
    ∧ (min |s.pos| |fillDelta f| < |fillDelta f| →
        (posStep s f).pos =
            (if 0 < fillDelta f then 1 else -1) * (|fillDelta f| - min |s.pos| |fillDelta f|)
          ∧ (posStep s f).avg_entry = f.price)
    ∧ (¬ min |s.pos| |fillDelta f| < |fillDelta f| →
        (posStep s f).pos =
            (if 0 < s.pos then s.pos - min |s.pos| |fillDelta f|
             else s.pos + min |s.pos| |fillDelta f|)
          ∧ (posStep s f).avg_entry = s.avg_entry)
    ∧ (([fillBuy10at100, fillSell15at110].foldl posStep PosState.init).realized = 100
        ∧ ([fillBuy10at100, fillSell15at110].foldl posStep PosState.init).pos = -5
        ∧ ([fillBuy10at100, fillSell15at110].foldl posStep PosState.init).avg_entry = 110) := by
  have hdelta : (if f.side = Side.buy then f.amount else -f.amount) = fillDelta f := rfl
  have hcond : ¬(s.pos = 0 ∨ (s.pos > 0 ∧ fillDelta f > 0) ∨ (s.pos < 0 ∧ fillDelta f < 0)) := by
    rcases hopp with ⟨h1, h2⟩ | ⟨h1, h2⟩ <;>
      rintro (h | ⟨ha, hb⟩ | ⟨ha, hb⟩) <;> linarith
  refine ⟨?_, ?_, ?_, ?_⟩
  · simp only [posStep, hdelta, if_neg hcond]
    rcases hopp with ⟨h1, h2⟩ | ⟨h1, h2⟩
    · rw [if_pos ⟨h1, h2⟩, if_pos h1]
    · rw [if_neg (by rintro ⟨ha, _⟩; linarith), if_pos ⟨h1, h2⟩,
        if_neg (by intro ha; linarith)]
  · intro hlt
    have hrem : (0 : ℚ) < |fillDelta f| - min |s.pos| |fillDelta f| := by linarith
    simp only [posStep, hdelta, if_neg hcond]
    rw [if_pos hrem, if_pos hrem]
    exact ⟨rfl, rfl⟩
  · intro hge
    have hrem : ¬((0 : ℚ) < |fillDelta f| - min |s.pos| |fillDelta f|) := by
      intro h; exact hge (by linarith)
    simp only [posStep, hdelta, if_neg hcond]
    simp only [if_neg hrem]
    exact ⟨trivial, trivial⟩
  · refine ⟨?_, ?_, ?_⟩ <;>
      (simp +decide [fillBuy10at100, fillSell15at110, posStep, PosState.init] <;> norm_num)

/-- The loop state after the spec example's first fill: long 10 at average
entry 100 (used to instantiate the C2 witness). -/
def posLong10at100 : PosState :=
  { pos := 10, max_abs_pos := 10, avg_entry := 100, realized := 0,
    realized_reported := 0, has_reported := false }

/-- C2 witness: the opposite-direction theorem applied to the concrete
reversal state (long 10 @ avg 100) and the sell-15-@-110 fill. -/
theorem recompute_opposite_direction_fill_witness :
    (0 < posLong10at100.pos ∧ fillDelta fillSell15at110 < 0)
    ∧ (posStep posLong10at100 fillSell15at110).realized = posLong10at100.realized +
        (if 0 < posLong10at100.pos
         then (fillSell15at110.price - posLong10at100.avg_entry)
            * min |posLong10at100.pos| |fillDelta fillSell15at110|
         else (posLong10at100.avg_entry - fillSell15at110.price)
            * min |posLong10at100.pos| |fillDelta fillSell15at110|) := by
  have h : 0 < posLong10at100.pos ∧ fillDelta fillSell15at110 < 0 := by
    constructor
    · norm_num [posLong10at100]
    · simp +decide [fillDelta, fillSell15at110]
  exact ⟨h, (recompute_opposite_direction_fill posLong10at100 fillSell15at110 (Or.inl h)).1⟩

/-! ## C8 — recompute is idempotent and a pure function of its inputs -/

/-- `recompute` never touches the fill list, the funding list or the status. -/
theorem recomputeLC_preserves_inputs (lc : TradeLifecycle) :
    (recomputeLC lc).fills = lc.fills
      ∧ (recomputeLC lc).funding_payments_usdt = lc.funding_payments_usdt
      ∧ (recomputeLC lc).status = lc.status := by
  unfold recomputeLC
  split <;> exact ⟨rfl, rfl, rfl⟩

/-- C8: running `recompute` twice leaves `TradeMetrics` exactly as after one
run, and the metrics depend only on (fills, funding payments, status, attached
snapshot fields) — two lifecycles agreeing there get identical metrics. -/
theorem recompute_idempotent_and_pure :
    (∀ lc : TradeLifecycle,
        (recomputeLC (recomputeLC lc)).metrics = (recomputeLC lc).metrics)
    ∧ (∀ lc₁ lc₂ : TradeLifecycle, lc₁.fills = lc₂.fills →
        lc₁.funding_payments_usdt = lc₂.funding_payments_usdt →
        lc₁.status = lc₂.status →
        lc₁.metrics.available_margin_usdt_at_entry
            = lc₂.metrics.available_margin_usdt_at_entry →
        lc₁.metrics.equity_usdt_at_entry = lc₂.metrics.equity_usdt_at_entry →
        (recomputeLC lc₁).metrics = (recomputeLC lc₂).metrics) := by
  constructor
  · intro lc
    by_cases h : lc.fills = []
    · have e1 : recomputeLC lc = { lc with metrics := TradeMetrics.default0 } := by
        simp [recomputeLC, h]
      rw [e1]
      simp [recomputeLC, h]
    · have e1 : recomputeLC lc = { lc with
        metrics := computeMetrics lc.fills lc.funding_payments_usdt lc.status
          lc.metrics.available_margin_usdt_at_entry lc.metrics.equity_usdt_at_entry
        risk := { lc.risk with planned_stop_loss := lc.plan.planned_stop_loss } } := by
        simp [recomputeLC, h]
      rw [e1]
      simp only [recomputeLC, if_neg h]
      rw [computeMetrics_avail _ _ _ _ _ h, computeMetrics_equity _ _ _ _ _ h]
  · intro lc₁ lc₂ hfills hfund hstatus havail hequity
    by_cases h : lc₁.fills = []
    · have h2 : lc₂.fills = [] := hfills ▸ h
      simp [recomputeLC, h, h2]
    · have h2 : lc₂.fills ≠ [] := hfills ▸ h
      simp only [recomputeLC, if_neg h, if_neg h2]
      rw [hfills, hfund, hstatus, havail, hequity]

/-- C8 witness: idempotence and input-purity at the concrete lifecycle `lcRep`. -/
theorem recompute_idempotent_and_pure_witness :
    (recomputeLC (recomputeLC lcRep)).metrics = (recomputeLC lcRep).metrics
      ∧ (recomputeLC lcRep).metrics = (recomputeLC lcRep).metrics :=
  ⟨recompute_idempotent_and_pure.1 lcRep,
    recompute_idempotent_and_pure.2 lcRep lcRep rfl rfl rfl rfl rfl⟩

/-! ## C9 — percentage metrics of a closed lifecycle -/

/-- A closed one-fill lifecycle whose metrics carry an equity snapshot but no
available-margin snapshot (C9 counterexample input). -/
def lcNoMargin : TradeLifecycle :=
  { lifecycle_id := "lc-nm", symbol := "BTC/USDT:USDT",
    position_side := PositionSide.long,
    fills := [{ ts := 1, side := Side.buy, price := 10, amount := 1,
                reported_profit_usdt := some (-5) }],
    metrics := { equity_usdt_at_entry := some 100 },
    status := Status.closed }

/-- C9 counterexample: a closed lifecycle with a defined realized PnL and an
equity snapshot (but no available-margin snapshot) gets
`realized_pnl_pct_of_available_margin = none`: `recompute` never falls back to
the equity snapshot for this metric, contrary to the claim. -/
theorem recompute_no_equity_fallback_cex :
    lcNoMargin.metrics.available_margin_usdt_at_entry = none
    ∧ lcNoMargin.metrics.equity_usdt_at_entry = some 100
    ∧ (recomputeLC lcNoMargin).metrics.realized_pnl_usdt = some (-5)
    ∧ (recomputeLC lcNoMargin).metrics.realized_pnl_pct_of_available_margin = none := by
  refine ⟨rfl, rfl, ?_, ?_⟩ <;>
    simp +decide [recomputeLC, computeMetrics, sortByTs, insertByTs, posStep,
      PosState.init, maxNotional, wavg_price_by_trade_side, totalFees, totalFunding,
      TradeMetrics.default0, lcNoMargin]

/-- C9 (amended): for a closed lifecycle with fills, `realized_pnl_pct` is
`pnl / max_abs_notional · 100` and is omitted when the notional is 0, and
`realized_pnl_pct_of_available_margin` is `pnl / margin · 100` computed from
the available-margin snapshot only (omitted when that snapshot is absent or
zero; the equity snapshot is never used as a fallback here). -/
theorem recompute_pct_metrics (lc : TradeLifecycle)
    (hclosed : lc.status = Status.closed) (hne : lc.fills ≠ []) :
    ∃ pnl n : ℚ,
      (recomputeLC lc).metrics.realized_pnl_usdt = some pnl
      ∧ (recomputeLC lc).metrics.max_abs_notional_usdt = some n
      ∧ (recomputeLC lc).metrics.realized_pnl_pct =
          (if n = 0 then none else some (pnl / n * 100))
      ∧ (recomputeLC lc).metrics.realized_pnl_pct_of_available_margin =
          (match lc.metrics.available_margin_usdt_at_entry with
           | some m => if m = 0 then none else some (pnl / m * 100)
           | none => none) := by
  cases hs : sortByTs lc.fills with
  | nil => exact absurd hs (sortByTs_ne_nil hne)
  | cons f0 rest =>
    simp only [recomputeLC, if_neg hne, computeMetrics, hs, hclosed, maxNotional]
    refine ⟨_, _, rfl, rfl, ?_, ?_⟩
    · by_cases hn : (rest.foldl (fun acc g => max acc |g.amount * g.price|)
          |f0.amount * f0.price|) = 0 <;> simp [hn]
    · cases hm : lc.metrics.available_margin_usdt_at_entry with
      | none => simp
      | some m => by_cases hm0 : m = 0 <;> simp [hm0]

/-- Closed one-fill lifecycle with an available-margin snapshot (C9 witness). -/
def lcMargin : TradeLifecycle :=
  { lifecycle_id := "lc-margin", symbol := "BTC/USDT:USDT",
    position_side := PositionSide.long,
    fills := [{ ts := 1, side := Side.buy, price := 10, amount := 2,
                reported_profit_usdt := some 4 }],
    metrics := { available_margin_usdt_at_entry := some 200 },
    status := Status.closed }

/-- C9 witness: the amended percentage-metric theorem at `lcMargin`. -/
theorem recompute_pct_metrics_witness :
    lcMargin.status = Status.closed ∧ lcMargin.fills ≠ []
    ∧ (∃ pnl n : ℚ,
        (recomputeLC lcMargin).metrics.realized_pnl_usdt = some pnl
        ∧ (recomputeLC lcMargin).metrics.max_abs_notional_usdt = some n
        ∧ (recomputeLC lcMargin).metrics.realized_pnl_pct =
            (if n = 0 then none else some (pnl / n * 100))
        ∧ (recomputeLC lcMargin).metrics.realized_pnl_pct_of_available_margin =
            (match lcMargin.metrics.available_margin_usdt_at_entry with
             | some m => if m = 0 then none else some (pnl / m * 100)
             | none => none)) :=
  ⟨rfl, by simp [lcMargin], recompute_pct_metrics lcMargin rfl (by simp [lcMargin])⟩

/-! ## C10 — the empty-fills early return of recompute -/

/-- C10: with no fills, `recompute` resets the metrics to a fresh default
`TradeMetrics` (fills_count 0, both snapshot fields dropped) and returns
without copying the planned stop into `risk`; with fills it does copy
`plan.planned_stop_loss` into `risk.planned_stop_loss`. -/
theorem recompute_empty_fills_fresh_metrics :
    (∀ lc : TradeLifecycle, lc.fills = [] →
        (recomputeLC lc).metrics = TradeMetrics.default0
        ∧ (recomputeLC lc).metrics.fills_count = 0
        ∧ (recomputeLC lc).metrics.available_margin_usdt_at_entry = none
        ∧ (recomputeLC lc).metrics.equity_usdt_at_entry = none
        ∧ (recomputeLC lc).risk = lc.risk)
    ∧ (∀ lc : TradeLifecycle, lc.fills ≠ [] →
        (recomputeLC lc).risk.planned_stop_loss = lc.plan.planned_stop_loss) := by
  constructor
  · intro lc h
    refine ⟨?_, ?_, ?_, ?_, ?_⟩ <;> simp [recomputeLC, h, TradeMetrics.default0]
  · intro lc h
    simp [recomputeLC, h]

/-- A lifecycle with no fills but attached snapshots, a plan and a risk value
(C10 witness input). -/
def lcEmpty : TradeLifecycle :=
  { lifecycle_id := "lc-empty", symbol := "BTC/USDT:USDT",
    position_side := PositionSide.long, fills := [],
    plan := { planned_stop_loss := some 95 },
    metrics := { available_margin_usdt_at_entry := some 50,
                 equity_usdt_at_entry := some 60 },
    risk := { planned_stop_loss := none }, status := Status.open_ }

/-- C10 witness: the empty-fills theorem at `lcEmpty` and the nonempty
contrast at `lcRep`. -/
theorem recompute_empty_fills_fresh_metrics_witness :
    ((recomputeLC lcEmpty).metrics = TradeMetrics.default0
      ∧ (recomputeLC lcEmpty).metrics.fills_count = 0
      ∧ (recomputeLC lcEmpty).metrics.available_margin_usdt_at_entry = none
      ∧ (recomputeLC lcEmpty).metrics.equity_usdt_at_entry = none
      ∧ (recomputeLC lcEmpty).risk = lcEmpty.risk)
    ∧ (recomputeLC lcRep).risk.planned_stop_loss = lcRep.plan.planned_stop_loss :=
  ⟨recompute_empty_fills_fresh_metrics.1 lcEmpty rfl,
    recompute_empty_fills_fresh_metrics.2 lcRep (by simp [lcRep])⟩

/-! ## Lifecycle aggregation (`pipeline/aggregate_lifecycles.py`) -/

/-- String value of a `PositionSide` (`ps.value` in Python). -/
def posSideStr : PositionSide → String
  | PositionSide.long => "long"
  | PositionSide.short => "short"
  | PositionSide.unknown => "unknown"

/-- The signed quantity delta the aggregator applies for a fill (lines 81-91):
`+amount` for `trade_side=open`, `−amount` for `close`, and `+amount` for
`unknown` (treated as open, with a warning). -/
def aggDelta (f : ExecutionFill) : ℚ :=
  match f.trade_side with
  | TradeSide.close => -f.amount
  | _ => f.amount

/-- The aggregator's running signed quantity over a fill list, starting at 0
(the path taken by `qty_by_side[ps]` across a lifecycle's fills). -/
def runQty (fills : List ExecutionFill) : ℚ :=
  fills.foldl (fun acc f => acc + aggDelta f) 0

/-- One side bucket of the aggregator: its signed quantity counter
(`qty_by_side[ps]`) and its in-progress lifecycle (`current_by_side[ps]`). -/
structure Bucket where
  qty : ℚ
  cur : Option TradeLifecycle
deriving DecidableEq, Repr

/-- `_start` (lines 38-46): a fresh open lifecycle holding just fill `f`. -/
def startLifecycle (exchange symbol : String) (ps : PositionSide)
    (f : ExecutionFill) : TradeLifecycle :=
  { lifecycle_id := exchange ++ ":" ++ symbol ++ ":" ++ posSideStr ps ++ ":" ++ toString f.ts,
    exchange := exchange, symbol := symbol, position_side := ps,
    fills := [f], status := Status.open_ }

/-- `_append` (lines 48-79) acting on one bucket: returns the updated bucket,
the lifecycles flushed by this fill (0 or 1) and the warnings recorded. -/
def appendFill (exchange symbol : String) (ps : PositionSide) (b : Bucket)
    (f : ExecutionFill) (delta_qty : ℚ) : Bucket × List TradeLifecycle × List String :=
  let prev := b.qty
  let qty := b.qty + delta_qty
  match b.cur with
  | none =>
    if prev = 0 ∧ 0 < delta_qty ∧ 0 < qty then
      ({ qty := qty, cur := some (startLifecycle exchange symbol ps f) }, [], [])
    else if delta_qty < 0 then
      let tmp := recomputeLC { startLifecycle exchange symbol ps f with status := Status.closed }
      ({ qty := 0, cur := none }, [tmp],
        ["Symbol " ++ symbol ++ " (" ++ posSideStr ps ++ "): saw close before open at "
          ++ toString f.ts ++ " (window incomplete)."])
    else
      ({ qty := qty, cur := some (startLifecycle exchange symbol ps f) }, [],
        ["Symbol " ++ symbol ++ " (" ++ posSideStr ps ++ "): lifecycle started mid-position at "
          ++ toString f.ts ++ "."])
  | some cur =>
    let cur2 := { cur with fills := cur.fills ++ [f] }
    if qty ≤ 0 then
      ({ qty := 0, cur := none },
        [recomputeLC { cur2 with status := Status.closed }], [])
    else
      ({ qty := qty, cur := some cur2 }, [], [])

/-- The aggregator's whole mutable state: the three side buckets (the Python
dicts hold exactly the keys long, short, unknown), the flushed lifecycles and
the warnings. -/
structure AggState where
  long_b : Bucket
  short_b : Bucket
  unknown_b : Bucket
  lifecycles : List TradeLifecycle
  warnings : List String

/-- Bucket lookup (`qty_by_side[ps]` / `current_by_side[ps]`). -/
def AggState.bucket (s : AggState) : PositionSide → Bucket
  | PositionSide.long => s.long_b
  | PositionSide.short => s.short_b
  | PositionSide.unknown => s.unknown_b

/-- Bucket update. -/
def AggState.setBucket (s : AggState) : PositionSide → Bucket → AggState
  | PositionSide.long, b => { s with long_b := b }
  | PositionSide.short, b => { s with short_b := b }
  | PositionSide.unknown, b => { s with unknown_b := b }

/-- One iteration of the main loop of `aggregate_fills_to_lifecycles`
(lines 81-91): route the fill to its `hold_side` bucket with signed delta
`aggDelta f`, warning when `trade_side` is unknown. -/
def aggStep (exchange symbol : String) (s : AggState) (f : ExecutionFill) : AggState :=
  let ps := f.hold_side
  let warn0 : List String :=
    match f.trade_side with
    | TradeSide.unknown =>
      ["Symbol " ++ symbol ++ ": missing tradeSide; cannot reliably aggregate (hedge_mode)."]
    | _ => []
  let r := appendFill exchange symbol ps (s.bucket ps) f (aggDelta f)
  { (s.setBucket ps r.1) with
    lifecycles := s.lifecycles ++ r.2.1,
    warnings := s.warnings ++ warn0 ++ r.2.2 }

/-- End-of-stream flush (lines 94-98): any still-open lifecycle is recomputed
with status `open` and emitted. -/
def flushBucket (b : Bucket) : List TradeLifecycle :=
  match b.cur with
  | some cur => [recomputeLC { cur with status := Status.open_ }]
  | none => []

/-- `AggregationResult`. -/
structure AggregationResult where
  lifecycles : List TradeLifecycle
  warnings : List String

/-- The empty initial aggregator state. -/
def AggState.init : AggState :=
  { long_b := { qty := 0, cur := none }, short_b := { qty := 0, cur := none },
    unknown_b := { qty := 0, cur := none }, lifecycles := [], warnings := [] }

/-- `aggregate_fills_to_lifecycles` (lines 17-100): sort the fills by time,
fold the per-fill routing, then flush still-open buckets in the dicts'
insertion order (long, short, unknown). -/
def aggregateFills (exchange symbol : String) (fills : List ExecutionFill) :
    AggregationResult :=
  let s := (sortByTs fills).foldl (aggStep exchange symbol) AggState.init
  { lifecycles := s.lifecycles ++ flushBucket s.long_b ++ flushBucket s.short_b
      ++ flushBucket s.unknown_b,
    warnings := s.warnings }

/-! ## C3 — the signed-quantity path of emitted lifecycles -/

/-- The quantity-path property an emitted lifecycle satisfies: a closed one
ends with running quantity ≤ 0; an open one keeps the running quantity
strictly positive after every fill beyond the first. -/
def LcPathOK (lc : TradeLifecycle) : Prop :=
  (lc.status = Status.closed → runQty lc.fills ≤ 0)
    ∧ (lc.status = Status.open_ →
        ∀ n, 2 ≤ n → n ≤ lc.fills.length → 0 < runQty (lc.fills.take n))

/-- Invariant of one bucket: an empty bucket has quantity 0; an in-progress
lifecycle has nonempty fills, its bucket counter equals the running quantity
of its fills, and all its partial sums beyond the first fill are positive. -/
def BucketInv (b : Bucket) : Prop :=
  match b.cur with
  | none => b.qty = 0
  | some cur => cur.fills ≠ [] ∧ b.qty = runQty cur.fills
      ∧ ∀ n, 2 ≤ n → n ≤ cur.fills.length → 0 < runQty (cur.fills.take n)

/-- Appending one fill to the running quantity. -/
theorem runQty_append (l : List ExecutionFill) (f : ExecutionFill) :
    runQty (l ++ [f]) = runQty l + aggDelta f := by
  simp [runQty, List.foldl_append]

/-- `runQty` of a single fill. -/
theorem runQty_singleton (f : ExecutionFill) : runQty [f] = aggDelta f := by
  simp [runQty]

/-- `recomputeLC` does not change fills or status, so it preserves `LcPathOK`. -/
theorem recomputeLC_LcPathOK (lc : TradeLifecycle) (h : LcPathOK lc) :
    LcPathOK (recomputeLC lc) := by
  obtain ⟨hf, -, hs⟩ := recomputeLC_preserves_inputs lc
  exact ⟨fun hc => hf ▸ h.1 (hs ▸ hc), fun ho => hf ▸ h.2 (hs ▸ ho)⟩

/-- One `appendFill` step preserves the bucket invariant, and every lifecycle
it flushes satisfies the path property. -/
theorem appendFill_inv (exchange symbol : String) (ps : PositionSide) (b : Bucket)
    (f : ExecutionFill) (hb : BucketInv b) :
    BucketInv (appendFill exchange symbol ps b f (aggDelta f)).1
      ∧ ∀ lc ∈ (appendFill exchange symbol ps b f (aggDelta f)).2.1, LcPathOK lc := by
  cases hc : b.cur with
  | none =>
    simp only [appendFill, hc]
    have hq : b.qty = 0 := by simpa [BucketInv, hc] using hb
    by_cases h1 : b.qty = 0 ∧ 0 < aggDelta f ∧ 0 < b.qty + aggDelta f
    · rw [if_pos h1]
      refine ⟨?_, by simp⟩
      simp only [BucketInv, startLifecycle]
      refine ⟨by simp, by simp [runQty_singleton, hq], ?_⟩
      intro n h2 hlen
      simp at hlen
      omega
    · rw [if_neg h1]
      by_cases h2 : aggDelta f < 0
      · rw [if_pos h2]
        refine ⟨by simp [BucketInv], ?_⟩
        intro lc hlc
        simp at hlc
        subst hlc
        apply recomputeLC_LcPathOK
        constructor
        · intro _
          simp only [startLifecycle, runQty_singleton]
          linarith
        · intro ho
          simp at ho
      · rw [if_neg h2]
        refine ⟨?_, by simp⟩
        simp only [BucketInv, startLifecycle]
        refine ⟨by simp, by simp [runQty_singleton, hq], ?_⟩
        intro n hn hlen
        simp at hlen
        omega
  | some cur =>
    simp only [appendFill, hc]
    obtain ⟨hne, hq, hpref⟩ : cur.fills ≠ [] ∧ b.qty = runQty cur.fills
        ∧ ∀ n, 2 ≤ n → n ≤ cur.fills.length → 0 < runQty (cur.fills.take n) := by
      simpa [BucketInv, hc] using hb
    have hrun : runQty (cur.fills ++ [f]) = b.qty + aggDelta f := by
      rw [runQty_append, hq]
    by_cases hle : b.qty + aggDelta f ≤ 0
    · rw [if_pos hle]
      refine ⟨by simp [BucketInv], ?_⟩
      intro lc hlc
      simp at hlc
      subst hlc
      apply recomputeLC_LcPathOK
      constructor
      · intro _
        simpa [hrun] using hle
      · intro ho
        simp at ho
    · rw [if_neg hle]
      refine ⟨?_, by simp⟩
      simp only [BucketInv]
      refine ⟨by simp, by simp [hrun], ?_⟩
      intro n hn hlen
      simp only [List.length_append, List.length_singleton] at hlen
      by_cases hsmall : n ≤ cur.fills.length
      · rw [List.take_append_of_le_length hsmall]
        exact hpref n hn hsmall
      · have hfull : n = cur.fills.length + 1 := by omega
        have : (cur.fills ++ [f]).take n = cur.fills ++ [f] := by
          apply List.take_of_length_le
          simp [hfull]
        rw [this, hrun]
        linarith

/-- Invariant of the whole aggregator state. -/
def AggInv (s : AggState) : Prop :=
  BucketInv s.long_b ∧ BucketInv s.short_b ∧ BucketInv s.unknown_b
    ∧ ∀ lc ∈ s.lifecycles, LcPathOK lc

/-- One aggregation step preserves the state invariant. -/
theorem aggStep_inv (exchange symbol : String) (s : AggState) (f : ExecutionFill)
    (h : AggInv s) : AggInv (aggStep exchange symbol s f) := by
  obtain ⟨hl, hsh, hu, hlcs⟩ := h
  cases hps : f.hold_side with
  | long =>
    have hstep := appendFill_inv exchange symbol PositionSide.long s.long_b f hl
    simp only [aggStep, hps, AggState.bucket, AggState.setBucket]
    refine ⟨hstep.1, hsh, hu, ?_⟩
    intro lc hlc
    rcases List.mem_append.mp hlc with h1 | h2
    · exact hlcs lc h1
    · exact hstep.2 lc h2
  | short =>
    have hstep := appendFill_inv exchange symbol PositionSide.short s.short_b f hsh
    simp only [aggStep, hps, AggState.bucket, AggState.setBucket]
    refine ⟨hl, hstep.1, hu, ?_⟩
    intro lc hlc
    rcases List.mem_append.mp hlc with h1 | h2
    · exact hlcs lc h1
    · exact hstep.2 lc h2
  | unknown =>
    have hstep := appendFill_inv exchange symbol PositionSide.unknown s.unknown_b f hu
    simp only [aggStep, hps, AggState.bucket, AggState.setBucket]
    refine ⟨hl, hsh, hstep.1, ?_⟩
    intro lc hlc
    rcases List.mem_append.mp hlc with h1 | h2
    · exact hlcs lc h1
    · exact hstep.2 lc h2

/-- The aggregation fold preserves the state invariant. -/
theorem foldl_aggStep_inv (exchange symbol : String) :
    ∀ (fills : List ExecutionFill) (s : AggState), AggInv s →
      AggInv (fills.foldl (aggStep exchange symbol) s) := by
  intro fills
  induction fills with
  | nil => intro s h; exact h
  | cons f fs ih => intro s h; exact ih _ (aggStep_inv exchange symbol s f h)

/-- End-of-stream flushing emits only path-correct open lifecycles. -/
theorem flushBucket_LcPathOK (b : Bucket) (hb : BucketInv b) :
    ∀ lc ∈ flushBucket b, LcPathOK lc := by
  intro lc hlc
  cases hc : b.cur with
  | none => simp [flushBucket, hc] at hlc
  | some cur =>
    obtain ⟨hne, hq, hpref⟩ : cur.fills ≠ [] ∧ b.qty = runQty cur.fills
        ∧ ∀ n, 2 ≤ n → n ≤ cur.fills.length → 0 < runQty (cur.fills.take n) := by
      simpa [BucketInv, hc] using hb
    simp only [flushBucket, hc, List.mem_singleton] at hlc
    subst hlc
    apply recomputeLC_LcPathOK
    constructor
    · intro hcl
      simp at hcl
    · intro _ n hn hlen
      exact hpref n hn (by simpa using hlen)

/-- The head of a nonempty list (with any default) is a member. -/
theorem head_getD_mem (l : List TradeLifecycle) (d : TradeLifecycle) (h : l ≠ []) :
    l.head?.getD d ∈ l := by
  cases l with
  | nil => exact absurd rfl h
  | cons a t => simp

/-- C3 (amended): every lifecycle the aggregator emits as closed ends with
running signed quantity ≤ 0 — exactly 0 unless the closing fill over-closes
or a close arrived before any open — and every lifecycle emitted as open
never returns to 0 after its first fill (all later partial sums are nonzero,
in fact positive). -/
theorem aggregator_quantity_path (exchange symbol : String)
    (fills : List ExecutionFill) :
    ∀ lc ∈ (aggregateFills exchange symbol fills).lifecycles,
      (lc.status = Status.closed → runQty lc.fills ≤ 0)
      ∧ (lc.status = Status.open_ →
          ∀ n, 2 ≤ n → n ≤ lc.fills.length → runQty (lc.fills.take n) ≠ 0) := by
  intro lc hlc
  have hinit : AggInv AggState.init := by
    refine ⟨rfl, rfl, rfl, ?_⟩
    intro lc hlc
    simp [AggState.init] at hlc
  have hinv := foldl_aggStep_inv exchange symbol (sortByTs fills) AggState.init hinit
  obtain ⟨hl, hsh, hu, hlcs⟩ := hinv
  simp only [aggregateFills] at hlc
  have hok : LcPathOK lc := by
    rcases List.mem_append.mp hlc with h1 | h2
    · rcases List.mem_append.mp h1 with h3 | h4
      · rcases List.mem_append.mp h3 with h5 | h6
        · exact hlcs lc h5
        · exact flushBucket_LcPathOK _ hl lc h6
      · exact flushBucket_LcPathOK _ hsh lc h4
    · exact flushBucket_LcPathOK _ hu lc h2
  exact ⟨hok.1, fun ho n hn hlen => (hok.2 ho n hn hlen).ne'⟩

/-- A lone close fill (close before any open in the window): the aggregator
synthesizes an immediately-closed placeholder lifecycle. -/
def fillCloseOnly : ExecutionFill :=
  { ts := 5, side := Side.sell, price := 10, amount := 5,
    trade_side := TradeSide.close, hold_side := PositionSide.long }

/-- C3 counterexample: a closed lifecycle whose signed running quantity after
its last fill is −5, not 0 (the aggregator closes on quantity ≤ 0 and a
close-before-open placeholder ends negative). -/
theorem aggregator_quantity_exact_zero_cex :
    (aggregateFills "bitget" "BTCUSDT" [fillCloseOnly]).lifecycles.map
        (fun lc => (lc.status, runQty lc.fills)) = [(Status.closed, -5)]
    ∧ ¬((-5 : ℚ) = 0) := by
  constructor
  · simp +decide [aggregateFills, aggStep, appendFill, AggState.init, AggState.bucket,
      AggState.setBucket, flushBucket, aggDelta, runQty, sortByTs, insertByTs,
      startLifecycle, fillCloseOnly, recomputeLC]
  · norm_num

/-- The lifecycle emitted for the lone close fill (used by the C3 witness). -/
def aggWitnessLc : TradeLifecycle :=
  ((aggregateFills "bitget" "BTCUSDT" [fillCloseOnly]).lifecycles).head?.getD lcEmpty

/-- C3 witness: the quantity-path theorem applied to the concrete aggregation
of the lone close fill. -/
theorem aggregator_quantity_path_witness :
    aggWitnessLc ∈ (aggregateFills "bitget" "BTCUSDT" [fillCloseOnly]).lifecycles
    ∧ ((aggWitnessLc.status = Status.closed → runQty aggWitnessLc.fills ≤ 0)
      ∧ (aggWitnessLc.status = Status.open_ →
          ∀ n, 2 ≤ n → n ≤ aggWitnessLc.fills.length →
            runQty (aggWitnessLc.fills.take n) ≠ 0)) := by
  have hne : (aggregateFills "bitget" "BTCUSDT" [fillCloseOnly]).lifecycles ≠ [] := by
    simp +decide [aggregateFills, aggStep, appendFill, AggState.init, AggState.bucket,
      AggState.setBucket, flushBucket, aggDelta, sortByTs, insertByTs,
      startLifecycle, fillCloseOnly, recomputeLC]
  have hmem := head_getD_mem _ lcEmpty hne
  exact ⟨hmem, aggregator_quantity_path "bitget" "BTCUSDT" [fillCloseOnly] aggWitnessLc hmem⟩

/-! ## Event detection (`analysis/events.py`)

The Chinese catalog strings (`name_zh` / `definition_zh` / `logic_zh`) are
constant lookups with no behavioral content and are not modelled; the
evidence dict of each rule is modelled as a tagged payload carrying the same
values the Python dict carries. -/

/-- Severity levels P0/P1/P2. -/
inductive EventLevel where
  | P0
  | P1
  | P2
deriving DecidableEq, Repr

/-- `TradeEventType`. -/
inductive TradeEventType where
  | open_completed
  | close_completed
  | stop_loss_triggered
  | big_loss_pct_equity
  | consecutive_losses
  | high_leverage_used
  | night_trading_us_eastern
deriving DecidableEq, Repr

/-- `event_type.value` (the string id used in `event_id`). -/
def TradeEventType.value : TradeEventType → String
  | TradeEventType.open_completed => "open_completed"
  | TradeEventType.close_completed => "close_completed"
  | TradeEventType.stop_loss_triggered => "stop_loss_triggered"
  | TradeEventType.big_loss_pct_equity => "big_loss_pct_equity"
  | TradeEventType.consecutive_losses => "consecutive_losses"
  | TradeEventType.high_leverage_used => "high_leverage_used"
  | TradeEventType.night_trading_us_eastern => "night_trading_us_eastern"

/-- `EvidenceFillRef`: the fill fields copied into evidence. -/
structure EvidenceFillRef where
  ts : Int
  side : Side
  price : ℚ
  amount : ℚ
  trade_id : Option String := none
  order_id : Option String := none
deriving DecidableEq, Repr

/-- `_fill_ref`. -/
def fillRef (f : ExecutionFill) : EvidenceFillRef :=
  { ts := f.ts, side := f.side, price := f.price, amount := f.amount,
    trade_id := f.trade_id, order_id := f.order_id }

/-- One row of the consecutive-losses evidence window. -/
structure LossWindowEntry where
  lifecycle_id : String
  symbol : String
  position_side : PositionSide
  exit_ts : Option Int
  realized_pnl_usdt : Option ℚ
deriving DecidableEq, Repr

/-- Per-rule evidence payload (the values the Python evidence dict holds). -/
inductive Evidence where
  | openCompleted (fill : EvidenceFillRef)
  | closeCompleted (fill : EvidenceFillRef)
  | stopLoss (planned_stop_loss : ℚ) (trigger_fill : EvidenceFillRef)
  | bigLoss (realized_pnl_usdt base_balance loss_pct threshold_pct : ℚ)
      (source : Option String)
  | highLeverage (max_abs_notional base_balance effective_leverage threshold : ℚ)
      (source : Option String)
  | nightTrading (entry_ts : Int) (local_h local_m : Nat)
      (window_start window_end : Nat × Nat)
  | consecutiveLosses (n : Nat) (window : List LossWindowEntry)
deriving DecidableEq, Repr

/-- `TradeEvent`. -/
structure TradeEvent where
  event_id : String
  event_type : TradeEventType
  level : EventLevel
  lifecycle_id : String
  symbol : String
  position_side : PositionSide
  occurred_at : Int
  evidence : Evidence
deriving DecidableEq, Repr

/-- Python's `a or b` on two optional Decimals (`Decimal("0")` and `None` are
falsy), as used for `base_balance` (line 243). -/
def orDecimal (a b : Option ℚ) : Option ℚ :=
  match a with
  | some x => if x ≠ 0 then some x else b
  | none => b

/-- `base_balance_source` (lines 244-248). -/
def baseBalanceSource (m : TradeMetrics) : Option String :=
  if m.available_margin_usdt_at_entry.isSome then some "available_margin_usdt_at_entry"
  else if m.equity_usdt_at_entry.isSome then some "equity_usdt_at_entry"
  else none

/-- The stop-crossing condition of the stop-loss loop (lines 205-213): the
fill is on the exit side and its price touches or crosses the planned stop
(`price ≤ stop` for a long, `price ≥ stop` for a short; an unknown-side
lifecycle never triggers). -/
def stopCross (ps : PositionSide) (planned_sl : ℚ) (f : ExecutionFill) : Prop :=
  f.side = (if ps = PositionSide.long then Side.sell else Side.buy)
    ∧ ((ps = PositionSide.long ∧ f.price ≤ planned_sl)
      ∨ (ps = PositionSide.short ∧ planned_sl ≤ f.price))

instance (ps : PositionSide) (sl : ℚ) (f : ExecutionFill) :
    Decidable (stopCross ps sl f) := by
  unfold stopCross
  infer_instance

/-- `open_completed` event (lines 156-175): always emitted, P2. -/
def openCompletedEvents (lc : TradeLifecycle) (first : ExecutionFill) : List TradeEvent :=
  [{ event_id := lc.lifecycle_id ++ ":" ++ TradeEventType.open_completed.value,
     event_type := TradeEventType.open_completed, level := EventLevel.P2,
     lifecycle_id := lc.lifecycle_id, symbol := lc.symbol,
     position_side := lc.position_side, occurred_at := first.ts,
     evidence := Evidence.openCompleted (fillRef first) }]

/-- `close_completed` event (lines 177-197): only when the lifecycle is closed. -/
def closeCompletedEvents (lc : TradeLifecycle) (last : ExecutionFill) : List TradeEvent :=
  if lc.status = Status.closed then
    [{ event_id := lc.lifecycle_id ++ ":" ++ TradeEventType.close_completed.value,
       event_type := TradeEventType.close_completed, level := EventLevel.P2,
       lifecycle_id := lc.lifecycle_id, symbol := lc.symbol,
       position_side := lc.position_side, occurred_at := last.ts,
       evidence := Evidence.closeCompleted (fillRef last) }]
  else []

/-- `stop_loss_triggered` (lines 199-239): requires a planned stop; fires P0
on the first fill of the (time-sorted) list satisfying `stopCross`. -/
def stopLossEvents (lc : TradeLifecycle) (fills : List ExecutionFill) : List TradeEvent :=
  match lc.plan.planned_stop_loss with
  | none => []
  | some planned_sl =>
    match fills.find? (fun f => decide (stopCross lc.position_side planned_sl f)) with
    | some trigger_fill =>
      [{ event_id := lc.lifecycle_id ++ ":" ++ TradeEventType.stop_loss_triggered.value,
         event_type := TradeEventType.stop_loss_triggered, level := EventLevel.P0,
         lifecycle_id := lc.lifecycle_id, symbol := lc.symbol,
         position_side := lc.position_side, occurred_at := trigger_fill.ts,
         evidence := Evidence.stopLoss planned_sl (fillRef trigger_fill) }]
    | none => []

/-- `big_loss_pct_equity` (lines 241-274). -/
def bigLossEvents (threshold_pct : ℚ) (lc : TradeLifecycle) (last : ExecutionFill) :
    List TradeEvent :=
  match lc.metrics.realized_pnl_usdt,
      orDecimal lc.metrics.available_margin_usdt_at_entry lc.metrics.equity_usdt_at_entry with
  | some pnl, some base_balance =>
    if 0 < base_balance then
      if pnl < 0 ∧ threshold_pct ≤ |pnl| / base_balance * 100 then
        [{ event_id := lc.lifecycle_id ++ ":" ++ TradeEventType.big_loss_pct_equity.value,
           event_type := TradeEventType.big_loss_pct_equity, level := EventLevel.P0,
           lifecycle_id := lc.lifecycle_id, symbol := lc.symbol,
           position_side := lc.position_side,
           occurred_at := lc.metrics.exit_ts.getD last.ts,
           evidence := Evidence.bigLoss pnl base_balance (|pnl| / base_balance * 100)
             threshold_pct (baseBalanceSource lc.metrics) }]
      else []
    else []
  | _, _ => []

/-- `high_leverage_used` (lines 276-303). -/
def highLeverageEvents (threshold : ℚ) (lc : TradeLifecycle) (first : ExecutionFill) :
    List TradeEvent :=
  match lc.metrics.max_abs_notional_usdt,
      orDecimal lc.metrics.available_margin_usdt_at_entry lc.metrics.equity_usdt_at_entry with
  | some notional, some base_balance =>
    if 0 < base_balance then
      if threshold ≤ notional / base_balance then
        [{ event_id := lc.lifecycle_id ++ ":" ++ TradeEventType.high_leverage_used.value,
           event_type := TradeEventType.high_leverage_used, level := EventLevel.P1,
           lifecycle_id := lc.lifecycle_id, symbol := lc.symbol,
           position_side := lc.position_side,
           occurred_at := lc.metrics.entry_ts.getD first.ts,
           evidence := Evidence.highLeverage notional base_balance (notional / base_balance)
             threshold (baseBalanceSource lc.metrics) }]
      else []
    else []
  | _, _ => []

/-- The default night window `("22:00", "06:00")`, parsed to
(hour, minute) pairs. -/
def defaultNightWindow : (Nat × Nat) × (Nat × Nat) := ((22, 0), (6, 0))

/-- `night_trading_us_eastern` (lines 305-344): convert the entry timestamp to
US-Eastern local (hour, minute); a conversion failure (`none`) yields no
event; otherwise fire P1 when the local time is in the cross-midnight window. -/
def nightTradingEvents (tz : Int → Option (Nat × Nat))
    (window : (Nat × Nat) × (Nat × Nat)) (lc : TradeLifecycle)
    (first : ExecutionFill) : List TradeEvent :=
  let entry_ts := lc.metrics.entry_ts.getD first.ts
  match tz entry_ts with
  | none => []
  | some (local_h, local_m) =>
    let in_late := window.1.1 < local_h ∨ (local_h = window.1.1 ∧ window.1.2 ≤ local_m)
    let in_early := local_h < window.2.1 ∨ (local_h = window.2.1 ∧ local_m ≤ window.2.2)
    if in_late ∨ in_early then
      [{ event_id := lc.lifecycle_id ++ ":" ++ TradeEventType.night_trading_us_eastern.value,
         event_type := TradeEventType.night_trading_us_eastern, level := EventLevel.P1,
         lifecycle_id := lc.lifecycle_id, symbol := lc.symbol,
         position_side := lc.position_side, occurred_at := entry_ts,
         evidence := Evidence.nightTrading entry_ts local_h local_m window.1 window.2 }]
    else []

/-- The body of `detect_events_for_lifecycle` after the `recompute()` call,
on a lifecycle with nonempty fills: the six per-lifecycle rules in their
fixed output order. -/
def detectCore (tz : Int → Option (Nat × Nat)) (big_loss_threshold_pct_equity : ℚ)
    (high_leverage_threshold : ℚ) (window : (Nat × Nat) × (Nat × Nat))
    (lc : TradeLifecycle) : List TradeEvent :=
  match sortByTs lc.fills with
  | [] => []
  | first :: rest =>
    let last := rest.getLastD first
    openCompletedEvents lc first
      ++ closeCompletedEvents lc last
      ++ stopLossEvents lc (first :: rest)
      ++ bigLossEvents big_loss_threshold_pct_equity lc last
      ++ highLeverageEvents high_leverage_threshold lc first
      ++ nightTradingEvents tz window lc first

/-- `detect_events_for_lifecycle` (lines 137-347): empty fills return no
events before recomputing; otherwise recompute and run the rules. -/
def detectEventsForLifecycle (tz : Int → Option (Nat × Nat))
    (big_loss_threshold_pct_equity : ℚ) (high_leverage_threshold : ℚ)
    (window : (Nat × Nat) × (Nat × Nat)) (lc : TradeLifecycle) : List TradeEvent :=
  if lc.fills = [] then []
  else detectCore tz big_loss_threshold_pct_equity high_leverage_threshold window
    (recomputeLC lc)

/-- The mutation `detect_events_for_lifecycle` applies to its argument: a
second `recompute()` unless the fill list is empty (early return). -/
def recomputeIfFills (lc : TradeLifecycle) : TradeLifecycle :=
  if lc.fills = [] then lc else recomputeLC lc

/-- Stable insertion keyed on `metrics.exit_ts` (every list element the batch
sorts has `exit_ts ≠ none`, so the `getD` default is never compared). -/
def insertByExit (x : TradeLifecycle) : List TradeLifecycle → List TradeLifecycle
  | [] => [x]
  | g :: gs =>
    if g.metrics.exit_ts.getD 0 ≤ x.metrics.exit_ts.getD 0 then g :: insertByExit x gs
    else x :: g :: gs

/-- Stable ascending sort by exit timestamp
(`sorted(closed, key=lambda x: x.metrics.exit_ts)`, line 380). -/
def sortByExit (l : List TradeLifecycle) : List TradeLifecycle :=
  l.foldl (fun acc x => insertByExit x acc) []

/-- The batch's pool for the consecutive-losses rule: the lifecycles with a
known exit timestamp and a known realized PnL, sorted ascending by exit time
(lines 379-380). -/
def closedSortedOf (lcs2 : List TradeLifecycle) : List TradeLifecycle :=
  sortByExit (lcs2.filter (fun lc =>
    lc.metrics.exit_ts.isSome && lc.metrics.realized_pnl_usdt.isSome))

/-- The batch-level `consecutive_losses` rule (lines 378-414). -/
def consecutiveLossEvents (n : Nat) (lcs2 : List TradeLifecycle) : List TradeEvent :=
  let closed_sorted := closedSortedOf lcs2
  if 2 ≤ n ∧ n ≤ closed_sorted.length then
    let window := closed_sorted.drop (closed_sorted.length - n)
    if window.all (fun w => decide (w.metrics.realized_pnl_usdt.getD 0 < 0)) then
      match window.getLast? with
      | some last =>
        [{ event_id := last.lifecycle_id ++ ":" ++ TradeEventType.consecutive_losses.value
             ++ ":" ++ toString n,
           event_type := TradeEventType.consecutive_losses, level := EventLevel.P0,
           lifecycle_id := last.lifecycle_id, symbol := last.symbol,
           position_side := last.position_side,
           occurred_at := last.metrics.exit_ts.getD 0,
           evidence := Evidence.consecutiveLosses n (window.map (fun w =>
             { lifecycle_id := w.lifecycle_id, symbol := w.symbol,
               position_side := w.position_side, exit_ts := w.metrics.exit_ts,
               realized_pnl_usdt := w.metrics.realized_pnl_usdt })) }]
      | none => []
    else []
  else []

/-- `detect_events_for_lifecycles` (lines 350-416): recompute every lifecycle,
run the per-lifecycle detector on each (which recomputes once more), then run
the batch consecutive-losses rule over the (twice-recomputed) lifecycles. -/
def detectEventsForLifecycles (tz : Int → Option (Nat × Nat))
    (big_loss_threshold_pct_equity : ℚ) (consecutive_losses_n : Nat)
    (high_leverage_threshold : ℚ) (window : (Nat × Nat) × (Nat × Nat))
    (lcs : List TradeLifecycle) : List TradeEvent :=
  let lcs1 := lcs.map recomputeLC
  let out := lcs1.flatMap
    (detectEventsForLifecycle tz big_loss_threshold_pct_equity high_leverage_threshold window)
  let lcs2 := lcs1.map recomputeIfFills
  out ++ consecutiveLossEvents consecutive_losses_n lcs2

/-! ## Discipline scorer (`reports/generator.py` lines 19-47) -/

/-- `DisciplineScore`: the final integer score and the breakdown dict
(`{"base": 100, "P0": …, "P1": …, "P2": …}`) as four integer fields. -/
structure DisciplineScore where
  score : Int
  base : Int
  p0 : Int
  p1 : Int
  p2 : Int
deriving DecidableEq, Repr

/-- The loop body of `compute_discipline_score` on the running
(score, P0-, P1-, P2-breakdown) accumulator. -/
def scoreStep (acc : Int × Int × Int × Int) (e : TradeEvent) : Int × Int × Int × Int :=
  match e.level with
  | EventLevel.P0 => (acc.1 - 20, acc.2.1 - 20, acc.2.2.1, acc.2.2.2)
  | EventLevel.P1 => (acc.1 - 8, acc.2.1, acc.2.2.1 - 8, acc.2.2.2)
  | EventLevel.P2 => (acc.1, acc.2.1, acc.2.2.1, acc.2.2.2 + 0)

/-- `compute_discipline_score`: start at 100, −20 per P0 event, −8 per P1,
0 per P2, floor the final score at 0. -/
def compute_discipline_score (events : List TradeEvent) : DisciplineScore :=
  let r := events.foldl scoreStep (100, 0, 0, 0)
  { score := if r.1 < 0 then 0 else r.1, base := 100, p0 := r.2.1, p1 := r.2.2.1,
    p2 := r.2.2.2 }

/-! ## C6 — the discipline score -/

/-- The score fold computes `100 − 20·#P0 − 8·#P1` with the matching
breakdown entries. -/
theorem scoreStep_foldl :
    ∀ (events : List TradeEvent) (s a b c : Int),
      events.foldl scoreStep (s, a, b, c) =
        (s - 20 * (events.countP (fun e => e.level == EventLevel.P0) : Int)
            - 8 * (events.countP (fun e => e.level == EventLevel.P1) : Int),
          a - 20 * (events.countP (fun e => e.level == EventLevel.P0) : Int),
          b - 8 * (events.countP (fun e => e.level == EventLevel.P1) : Int), c) := by
  intro events
  induction events with
  | nil => intro s a b c; simp
  | cons e es ih =>
    intro s a b c
    cases hl : e.level <;>
      simp only [List.foldl_cons, scoreStep, hl, ih, List.countP_cons] <;>
      simp +decide [Prod.ext_iff] <;> omega

/-- A P0-level event (concrete data for the scoring examples). -/
def p0Event : TradeEvent :=
  { event_id := "e0", event_type := TradeEventType.open_completed,
    level := EventLevel.P0, lifecycle_id := "x", symbol := "s",
    position_side := PositionSide.long, occurred_at := 0,
    evidence := Evidence.openCompleted { ts := 0, side := Side.buy, price := 0, amount := 0 } }

/-- A P1-level event. -/
def p1Event : TradeEvent :=
  { p0Event with event_id := "e1", level := EventLevel.P1 }

/-- A P2-level event. -/
def p2Event : TradeEvent :=
  { p0Event with event_id := "e2", level := EventLevel.P2 }

/-- C6: the discipline score is `clamp(100 − 20·#P0 − 8·#P1, floor 0)`, an
integer always in [0, 100]; appending a P2 event changes nothing (P2 never
affects the result); and `[P0, P0, P1]` scores 52.  (The score is by
construction a pure function of the event list.) -/
theorem discipline_score_spec :
    (∀ events : List TradeEvent,
        (compute_discipline_score events).score =
          max 0 (100 - 20 * (events.countP (fun e => e.level == EventLevel.P0) : Int)
            - 8 * (events.countP (fun e => e.level == EventLevel.P1) : Int))
        ∧ 0 ≤ (compute_discipline_score events).score
        ∧ (compute_discipline_score events).score ≤ 100)
    ∧ (∀ (events : List TradeEvent) (e : TradeEvent), e.level = EventLevel.P2 →
        compute_discipline_score (events ++ [e]) = compute_discipline_score events)
    ∧ (compute_discipline_score [p0Event, p0Event, p1Event]).score = 52 := by
  refine ⟨?_, ?_, ?_⟩
  · intro events
    have h := scoreStep_foldl events 100 0 0 0
    simp only [compute_discipline_score, h]
    refine ⟨?_, ?_, ?_⟩ <;> (split <;> omega)
  · intro events e he
    have h := scoreStep_foldl events 100 0 0 0
    simp [compute_discipline_score, List.foldl_append, scoreStep, he]
  · decide

/-- C6 witness: the scoring theorem applied to concrete event lists. -/
theorem discipline_score_spec_witness :
    compute_discipline_score ([p0Event] ++ [p2Event]) = compute_discipline_score [p0Event]
    ∧ (compute_discipline_score [p0Event]).score =
        max 0 (100 - 20 * (([p0Event].countP (fun e => e.level == EventLevel.P0)) : Int)
          - 8 * (([p0Event].countP (fun e => e.level == EventLevel.P1)) : Int)) :=
  ⟨discipline_score_spec.2.1 [p0Event] p2Event rfl,
    (discipline_score_spec.1 [p0Event]).1⟩

/-! ## C4 — the stop-loss rule -/

/-- `recompute` never touches identity, direction or plan. -/
theorem recomputeLC_preserves_meta (lc : TradeLifecycle) :
    (recomputeLC lc).plan = lc.plan
      ∧ (recomputeLC lc).position_side = lc.position_side
      ∧ (recomputeLC lc).lifecycle_id = lc.lifecycle_id
      ∧ (recomputeLC lc).symbol = lc.symbol := by
  unfold recomputeLC
  split <;> exact ⟨rfl, rfl, rfl, rfl⟩

/-- Events from the open-completed rule have that type. -/
theorem mem_openCompletedEvents_type {lc : TradeLifecycle} {first : ExecutionFill}
    {e : TradeEvent} (h : e ∈ openCompletedEvents lc first) :
    e.event_type = TradeEventType.open_completed := by
  simp only [openCompletedEvents, List.mem_singleton] at h
  subst h
  rfl

/-- Events from the close-completed rule have that type. -/
theorem mem_closeCompletedEvents_type {lc : TradeLifecycle} {last : ExecutionFill}
    {e : TradeEvent} (h : e ∈ closeCompletedEvents lc last) :
    e.event_type = TradeEventType.close_completed := by
  unfold closeCompletedEvents at h
  split at h
  · simp only [List.mem_singleton] at h
    subst h
    rfl
  · exact absurd h (by simp)

/-- Events from the stop-loss rule have that type. -/
theorem mem_stopLossEvents_type {lc : TradeLifecycle} {fills : List ExecutionFill}
    {e : TradeEvent} (h : e ∈ stopLossEvents lc fills) :
    e.event_type = TradeEventType.stop_loss_triggered := by
  unfold stopLossEvents at h
  split at h
  · exact absurd h (by simp)
  · split at h
    · simp only [List.mem_singleton] at h
      subst h
      rfl
    · exact absurd h (by simp)

/-- Events from the big-loss rule have that type. -/
theorem mem_bigLossEvents_type {thr : ℚ} {lc : TradeLifecycle} {last : ExecutionFill}
    {e : TradeEvent} (h : e ∈ bigLossEvents thr lc last) :
    e.event_type = TradeEventType.big_loss_pct_equity := by
  unfold bigLossEvents at h
  split at h
  · split at h
    · split at h
      · simp only [List.mem_singleton] at h
        subst h
        rfl
      · exact absurd h (by simp)
    · exact absurd h (by simp)
  · exact absurd h (by simp)

/-- Events from the high-leverage rule have that type. -/
theorem mem_highLeverageEvents_type {thr : ℚ} {lc : TradeLifecycle} {first : ExecutionFill}
    {e : TradeEvent} (h : e ∈ highLeverageEvents thr lc first) :
    e.event_type = TradeEventType.high_leverage_used := by
  unfold highLeverageEvents at h
  split at h
  · split at h
    · split at h
      · simp only [List.mem_singleton] at h
        subst h
        rfl
      · exact absurd h (by simp)
    · exact absurd h (by simp)
  · exact absurd h (by simp)

/-- Events from the night-trading rule have that type. -/
theorem mem_nightTradingEvents_type {tz : Int → Option (Nat × Nat)}
    {window : (Nat × Nat) × (Nat × Nat)} {lc : TradeLifecycle} {first : ExecutionFill}
    {e : TradeEvent} (h : e ∈ nightTradingEvents tz window lc first) :
    e.event_type = TradeEventType.night_trading_us_eastern := by
  simp only [nightTradingEvents] at h
  split at h
  · exact absurd h (by simp)
  · split at h
    · simp only [List.mem_singleton] at h
      subst h
      rfl
    · exact absurd h (by simp)

/-- Filtering on an event type removes chunks whose events all differ from it. -/
theorem filter_eventType_of_all_ne (t : TradeEventType) :
    ∀ l : List TradeEvent, (∀ e ∈ l, e.event_type ≠ t) →
      l.filter (fun e => e.event_type == t) = [] := by
  intro l
  induction l with
  | nil => intro _; rfl
  | cons a as ih =>
    intro h
    simp only [List.filter_cons]
    rw [if_neg (by simpa using h a (by simp))]
    exact ih (fun e he => h e (by simp [he]))

/-- Filtering on an event type keeps chunks whose events all carry it. -/
theorem filter_eventType_of_all_eq (t : TradeEventType) :
    ∀ l : List TradeEvent, (∀ e ∈ l, e.event_type = t) →
      l.filter (fun e => e.event_type == t) = l := by
  intro l
  induction l with
  | nil => intro _; rfl
  | cons a as ih =>
    intro h
    simp only [List.filter_cons]
    rw [if_pos (by simpa using h a (by simp))]
    rw [ih (fun e he => h e (by simp [he]))]

/-- In the detector's output, the stop-loss-typed events are exactly the
stop-loss rule's own output. -/
theorem stop_events_of_detect (tz : Int → Option (Nat × Nat)) (b l : ℚ)
    (w : (Nat × Nat) × (Nat × Nat)) (lc : TradeLifecycle)
    (hne : lc.fills ≠ []) (hsorted : lc.fills.Pairwise tsLE) :
    (detectEventsForLifecycle tz b l w lc).filter
        (fun e => e.event_type == TradeEventType.stop_loss_triggered)
      = stopLossEvents (recomputeLC lc) lc.fills := by
  obtain ⟨f0, rest, hf⟩ : ∃ f0 rest, lc.fills = f0 :: rest := by
    cases h : lc.fills with
    | nil => exact absurd h hne
    | cons a t => exact ⟨a, t, rfl⟩
  have hfills : (recomputeLC lc).fills = lc.fills := (recomputeLC_preserves_inputs lc).1
  have hsort : sortByTs lc.fills = lc.fills := sortByTs_eq_self _ hsorted
  simp only [detectEventsForLifecycle, if_neg hne]
  simp only [detectCore, hfills]
  rw [hsort]
  simp only [hf]
  simp only [List.filter_append]
  rw [filter_eventType_of_all_ne _ _
      (fun e he => by rw [mem_openCompletedEvents_type he]; simp),
    filter_eventType_of_all_ne _ _
      (fun e he => by rw [mem_closeCompletedEvents_type he]; simp),
    filter_eventType_of_all_eq _ _
      (fun e he => mem_stopLossEvents_type he),
    filter_eventType_of_all_ne _ _
      (fun e he => by rw [mem_bigLossEvents_type he]; simp),
    filter_eventType_of_all_ne _ _
      (fun e he => by rw [mem_highLeverageEvents_type he]; simp),
    filter_eventType_of_all_ne _ _
      (fun e he => by rw [mem_nightTradingEvents_type he]; simp)]
  simp [hf]

/-- The first fill (in a chronologically ordered list) satisfying a predicate
has the earliest timestamp among all fills satisfying it. -/
theorem find?_first_ts (p : ExecutionFill → Bool) :
    ∀ l : List ExecutionFill, l.Pairwise tsLE → ∀ f, l.find? p = some f →
      ∀ g ∈ l, p g → f.ts ≤ g.ts := by
  intro l
  induction l with
  | nil => intro _ f hf; simp at hf
  | cons a t ih =>
    intro hp f hf g hg hpg
    by_cases hpa : p a
    · rw [List.find?_cons_of_pos _ hpa] at hf
      injection hf with hf
      subst hf
      rcases List.mem_cons.mp hg with hg | hg
      · subst hg; exact le_refl _
      · exact (List.pairwise_cons.mp hp).1 g hg
    · rw [List.find?_cons_of_neg _ hpa] at hf
      rcases List.mem_cons.mp hg with hg | hg
      · subst hg; exact absurd hpg hpa
      · exact ih (List.pairwise_cons.mp hp).2 f hf g hg hpg

/-- Without a planned stop the stop-loss rule produces nothing. -/
theorem stopLossEvents_of_no_plan {lc : TradeLifecycle} {fills : List ExecutionFill}
    (h : lc.plan.planned_stop_loss = none) : stopLossEvents lc fills = [] := by
  simp [stopLossEvents, h]

/-- A timezone conversion that always fails (models `ZoneInfo` absence or an
`astimezone` exception). -/
def tzNone : Int → Option (Nat × Nat) := fun _ => none

/-- Spec's stop-loss example, first exit fill: sell @ 96 (above the stop). -/
def sellAt96 : ExecutionFill := { ts := 1, side := Side.sell, price := 96, amount := 1 }

/-- Spec's stop-loss example, second exit fill: sell @ 94 (crosses the stop). -/
def sellAt94 : ExecutionFill := { ts := 2, side := Side.sell, price := 94, amount := 1 }

/-- Spec's stop-loss example: long lifecycle, planned stop 95, time-ordered
fills sell@96 then sell@94. -/
def lcStop : TradeLifecycle :=
  { lifecycle_id := "lc-stop", symbol := "BTC/USDT:USDT",
    position_side := PositionSide.long, fills := [sellAt96, sellAt94],
    plan := { planned_stop_loss := some 95 }, status := Status.open_ }

/-- C4: with a planned stop, the P0 `stop_loss_triggered` event fires iff some
fill on the exit side crosses the stop, and then its timestamp and evidence
fill are the first crossing fill in chronological order; without a planned
stop the rule emits nothing; on the spec example (long, stop 95,
[sell@96, sell@94]) the event fires on the sell@94 fill (timestamp 2). -/
theorem stop_loss_first_crossing (tz : Int → Option (Nat × Nat)) (b l : ℚ)
    (w : (Nat × Nat) × (Nat × Nat)) (lc : TradeLifecycle) (sl : ℚ)
    (hsorted : lc.fills.Pairwise tsLE)
    (hsl : lc.plan.planned_stop_loss = some sl) :
    ((∃ e ∈ detectEventsForLifecycle tz b l w lc,
        e.event_type = TradeEventType.stop_loss_triggered)
      ↔ ∃ f ∈ lc.fills, stopCross lc.position_side sl f)
    ∧ (∀ e ∈ detectEventsForLifecycle tz b l w lc,
        e.event_type = TradeEventType.stop_loss_triggered →
          e.level = EventLevel.P0
            ∧ ∃ f, lc.fills.find? (fun g => decide (stopCross lc.position_side sl g)) = some f
                ∧ e.occurred_at = f.ts
                ∧ e.evidence = Evidence.stopLoss sl (fillRef f)
                ∧ ∀ g ∈ lc.fills, stopCross lc.position_side sl g → f.ts ≤ g.ts)
    ∧ (∀ lc' : TradeLifecycle, lc'.plan.planned_stop_loss = none →
        ∀ e ∈ detectEventsForLifecycle tz b l w lc',
          e.event_type ≠ TradeEventType.stop_loss_triggered)
    ∧ ((detectEventsForLifecycle tzNone 5 10 defaultNightWindow lcStop).filter
        (fun e => e.event_type == TradeEventType.stop_loss_triggered)).map
        (fun e => e.occurred_at) = [2] := by
  have hplan : (recomputeLC lc).plan.planned_stop_loss = some sl := by
    rw [(recomputeLC_preserves_meta lc).1, hsl]
  have hpos : (recomputeLC lc).position_side = lc.position_side :=
    (recomputeLC_preserves_meta lc).2.1
  refine ⟨?_, ?_, ?_, ?_⟩
  · by_cases hne : lc.fills = []
    · rw [detectEventsForLifecycle, if_pos hne]
      simp [hne]
    · have hfilter := stop_events_of_detect tz b l w lc hne hsorted
      constructor
      · rintro ⟨e, he, ht⟩
        have hmemf : e ∈ (detectEventsForLifecycle tz b l w lc).filter
            (fun e => e.event_type == TradeEventType.stop_loss_triggered) :=
          List.mem_filter.mpr ⟨he, by simp [ht]⟩
        rw [hfilter] at hmemf
        simp only [stopLossEvents, hplan, hpos] at hmemf
        cases hfind : lc.fills.find? (fun g => decide (stopCross lc.position_side sl g)) with
        | none => rw [hfind] at hmemf; simp at hmemf
        | some tf =>
          have hp := List.find?_some hfind
          exact ⟨tf, List.mem_of_find?_eq_some hfind,
            of_decide_eq_true (by simpa using hp)⟩
      · rintro ⟨f, hfmem, hcross⟩
        have hsome : (lc.fills.find?
            (fun g => decide (stopCross lc.position_side sl g))).isSome :=
          List.find?_isSome.mpr ⟨f, hfmem, decide_eq_true hcross⟩
        obtain ⟨tf, htf⟩ := Option.isSome_iff_exists.mp hsome
        have hne2 : (detectEventsForLifecycle tz b l w lc).filter
            (fun e => e.event_type == TradeEventType.stop_loss_triggered) ≠ [] := by
          rw [hfilter]
          simp only [stopLossEvents, hplan, hpos, htf]
          simp
        obtain ⟨e, he⟩ := List.exists_mem_of_ne_nil _ hne2
        exact ⟨e, (List.mem_filter.mp he).1, by simpa using (List.mem_filter.mp he).2⟩
  · intro e he ht
    have hne : lc.fills ≠ [] := by
      intro h0
      rw [detectEventsForLifecycle, if_pos h0] at he
      simp at he
    have hfilter := stop_events_of_detect tz b l w lc hne hsorted
    have hmemf : e ∈ (detectEventsForLifecycle tz b l w lc).filter
        (fun e => e.event_type == TradeEventType.stop_loss_triggered) :=
      List.mem_filter.mpr ⟨he, by simp [ht]⟩
    rw [hfilter] at hmemf
    simp only [stopLossEvents, hplan, hpos] at hmemf
    cases hfind : lc.fills.find? (fun g => decide (stopCross lc.position_side sl g)) with
    | none => rw [hfind] at hmemf; simp at hmemf
    | some tf =>
      rw [hfind] at hmemf
      simp only [List.mem_singleton] at hmemf
      subst hmemf
      refine ⟨rfl, tf, rfl, rfl, rfl, ?_⟩
      intro g hg hcg
      exact find?_first_ts _ lc.fills hsorted tf hfind g hg (decide_eq_true hcg)
  · intro lc' hnone e he ht
    by_cases hne' : lc'.fills = []
    · rw [detectEventsForLifecycle, if_pos hne'] at he
      simp at he
    · rw [detectEventsForLifecycle, if_neg hne'] at he
      simp only [detectCore] at he
      cases hs : sortByTs (recomputeLC lc').fills with
      | nil => rw [hs] at he; simp at he
      | cons f0 rest =>
        rw [hs] at he
        have hplan' : (recomputeLC lc').plan.planned_stop_loss = none := by
          rw [(recomputeLC_preserves_meta lc').1, hnone]
        simp only [List.mem_append] at he
        rcases he with ((((h1 | h2) | h3) | h4) | h5) | h6
        · rw [mem_openCompletedEvents_type h1] at ht; exact absurd ht (by simp) 
        · rw [mem_closeCompletedEvents_type h2] at ht; exact absurd ht (by simp)
        · rw [stopLossEvents_of_no_plan hplan'] at h3; simp at h3
        · rw [mem_bigLossEvents_type h4] at ht; exact absurd ht (by simp)
        · rw [mem_highLeverageEvents_type h5] at ht; exact absurd ht (by simp)
        · rw [mem_nightTradingEvents_type h6] at ht; exact absurd ht (by simp)
  · simp +decide [detectEventsForLifecycle, detectCore, recomputeLC, computeMetrics,
      sortByTs, insertByTs, posStep, PosState.init, maxNotional,
      wavg_price_by_trade_side, totalFees, totalFunding, TradeMetrics.default0,
      openCompletedEvents, closeCompletedEvents, stopLossEvents, bigLossEvents,
      highLeverageEvents, nightTradingEvents, orDecimal, baseBalanceSource,
      stopCross, fillRef, tzNone, defaultNightWindow, lcStop, sellAt96, sellAt94]

/-- C4 witness: the stop-loss theorem applied to the spec's concrete example
lifecycle `lcStop`. -/
theorem stop_loss_first_crossing_witness :
    (∃ e ∈ detectEventsForLifecycle tzNone 5 10 defaultNightWindow lcStop,
        e.event_type = TradeEventType.stop_loss_triggered)
      ↔ ∃ f ∈ lcStop.fills, stopCross lcStop.position_side 95 f :=
  (stop_loss_first_crossing tzNone 5 10 defaultNightWindow lcStop 95
    (by norm_num [lcStop, sellAt96, sellAt94, tsLE, List.pairwise_cons]) rfl).1

/-! ## C7 — the night-trading rule -/

/-- `recompute` stores the first (chronological) fill's timestamp as
`entry_ts`. -/
theorem computeMetrics_entry_ts (fills : List ExecutionFill) (funding : List (Int × ℚ))
    (status : Status) (a e : Option ℚ) (f0 : ExecutionFill) (rest : List ExecutionFill)
    (hs : sortByTs fills = f0 :: rest) :
    (computeMetrics fills funding status a e).entry_ts = some f0.ts := by
  simp [computeMetrics, hs]

/-- A failing timezone conversion silences the night-trading rule. -/
theorem nightTradingEvents_tzNone (w : (Nat × Nat) × (Nat × Nat))
    (lc : TradeLifecycle) (first : ExecutionFill) :
    nightTradingEvents tzNone w lc first = [] := by
  simp [nightTradingEvents, tzNone]

/-- In the detector's output, the night-trading-typed events are exactly the
night rule's own output on the first chronological fill. -/
theorem night_events_of_detect (tz : Int → Option (Nat × Nat)) (b l : ℚ)
    (w : (Nat × Nat) × (Nat × Nat)) (lc : TradeLifecycle) (f0 : ExecutionFill)
    (rest : List ExecutionFill) (hsorted : lc.fills.Pairwise tsLE)
    (hf : lc.fills = f0 :: rest) :
    (detectEventsForLifecycle tz b l w lc).filter
        (fun e => e.event_type == TradeEventType.night_trading_us_eastern)
      = nightTradingEvents tz w (recomputeLC lc) f0 := by
  have hne : lc.fills ≠ [] := by rw [hf]; simp
  have hfills : (recomputeLC lc).fills = lc.fills := (recomputeLC_preserves_inputs lc).1
  have hsort : sortByTs lc.fills = lc.fills := sortByTs_eq_self _ hsorted
  simp only [detectEventsForLifecycle, if_neg hne]
  simp only [detectCore, hfills]
  rw [hsort]
  simp only [hf]
  simp only [List.filter_append]
  rw [filter_eventType_of_all_ne _ _
      (fun e he => by rw [mem_openCompletedEvents_type he]; simp),
    filter_eventType_of_all_ne _ _
      (fun e he => by rw [mem_closeCompletedEvents_type he]; simp),
    filter_eventType_of_all_ne _ _
      (fun e he => by rw [mem_stopLossEvents_type he]; simp),
    filter_eventType_of_all_ne _ _
      (fun e he => by rw [mem_bigLossEvents_type he]; simp),
    filter_eventType_of_all_ne _ _
      (fun e he => by rw [mem_highLeverageEvents_type he]; simp),
    filter_eventType_of_all_eq _ _
      (fun e he => mem_nightTradingEvents_type he)]
  simp

/-- A conversion that lands every timestamp on 06:00 US-Eastern. -/
def tzSix : Int → Option (Nat × Nat) := fun _ => some (6, 0)

/-- A conversion that lands every timestamp on 06:01 US-Eastern. -/
def tzSixOhOne : Int → Option (Nat × Nat) := fun _ => some (6, 1)

/-- A lone opening fill for the night-trading boundary example. -/
def nightFill : ExecutionFill := { ts := 0, side := Side.buy, price := 1, amount := 1 }

/-- One-fill open lifecycle for the night-trading boundary example. -/
def lcNight : TradeLifecycle :=
  { lifecycle_id := "lc-night", symbol := "BTC/USDT:USDT",
    position_side := PositionSide.long, fills := [nightFill], status := Status.open_ }

/-- C7: under the default window, the P1 `night_trading_us_eastern` event
fires iff the entry timestamp (the first chronological fill) converts to a
US-Eastern local time in the cross-midnight window [22:00, 06:00], both
boundaries inclusive; exactly 06:00 fires and 06:01 does not; and a failed
conversion produces no event. -/
theorem night_trading_window_rule (tz : Int → Option (Nat × Nat)) (b l : ℚ)
    (lc : TradeLifecycle) (f0 : ExecutionFill) (rest : List ExecutionFill)
    (hsorted : lc.fills.Pairwise tsLE) (hf : lc.fills = f0 :: rest) :
    ((∃ e ∈ detectEventsForLifecycle tz b l defaultNightWindow lc,
        e.event_type = TradeEventType.night_trading_us_eastern)
      ↔ ∃ h m : Nat, tz f0.ts = some (h, m)
          ∧ ((22 < h ∨ (h = 22 ∧ 0 ≤ m)) ∨ (h < 6 ∨ (h = 6 ∧ m ≤ 0))))
    ∧ (∀ e ∈ detectEventsForLifecycle tz b l defaultNightWindow lc,
        e.event_type = TradeEventType.night_trading_us_eastern →
          e.level = EventLevel.P1 ∧ e.occurred_at = f0.ts)
    ∧ (∀ lc' : TradeLifecycle, ∀ e ∈ detectEventsForLifecycle tzNone b l defaultNightWindow lc',
        e.event_type ≠ TradeEventType.night_trading_us_eastern)
    ∧ (∃ e ∈ detectEventsForLifecycle tzSix 5 10 defaultNightWindow lcNight,
        e.event_type = TradeEventType.night_trading_us_eastern)
    ∧ (∀ e ∈ detectEventsForLifecycle tzSixOhOne 5 10 defaultNightWindow lcNight,
        e.event_type ≠ TradeEventType.night_trading_us_eastern) := by
  have hne : lc.fills ≠ [] := by rw [hf]; simp
  have hsort : sortByTs lc.fills = lc.fills := sortByTs_eq_self _ hsorted
  have hfilter := night_events_of_detect tz b l defaultNightWindow lc f0 rest hsorted hf
  have hentry : (recomputeLC lc).metrics.entry_ts = some f0.ts := by
    simp only [recomputeLC, if_neg hne]
    exact computeMetrics_entry_ts _ _ _ _ _ _ _ (hsort.trans hf)
  refine ⟨?_, ?_, ?_, ?_, ?_⟩
  · constructor
    · rintro ⟨e, he, ht⟩
      have hm : e ∈ nightTradingEvents tz defaultNightWindow (recomputeLC lc) f0 := by
        rw [← hfilter]
        exact List.mem_filter.mpr ⟨he, by simp [ht]⟩
      cases htz : tz f0.ts with
      | none =>
        simp only [nightTradingEvents, hentry, Option.getD_some, htz] at hm
        simp at hm
      | some p =>
        obtain ⟨h, m⟩ := p
        simp only [nightTradingEvents, hentry, Option.getD_some, defaultNightWindow,
          htz] at hm
        by_cases hcond : ((22 : Nat) < h ∨ (h = 22 ∧ 0 ≤ m)) ∨ (h < 6 ∨ (h = 6 ∧ m ≤ 0))
        · exact ⟨h, m, rfl, hcond⟩
        · rw [if_neg hcond] at hm
          simp at hm
    · rintro ⟨h, m, htz, hcond⟩
      have hne2 : (detectEventsForLifecycle tz b l defaultNightWindow lc).filter
          (fun e => e.event_type == TradeEventType.night_trading_us_eastern) ≠ [] := by
        rw [hfilter]
        simp only [nightTradingEvents, hentry, Option.getD_some, defaultNightWindow, htz]
        rw [if_pos hcond]
        simp
      obtain ⟨e, he⟩ := List.exists_mem_of_ne_nil _ hne2
      exact ⟨e, (List.mem_filter.mp he).1, by simpa using (List.mem_filter.mp he).2⟩
  · intro e he ht
    have hm : e ∈ nightTradingEvents tz defaultNightWindow (recomputeLC lc) f0 := by
      rw [← hfilter]
      exact List.mem_filter.mpr ⟨he, by simp [ht]⟩
    cases htz : tz f0.ts with
    | none =>
      simp only [nightTradingEvents, hentry, Option.getD_some, htz] at hm
      simp at hm
    | some p =>
      obtain ⟨h, m⟩ := p
      simp only [nightTradingEvents, hentry, Option.getD_some, defaultNightWindow,
        htz] at hm
      split at hm
      · simp only [List.mem_singleton] at hm
        subst hm
        exact ⟨rfl, rfl⟩
      · simp at hm
  · intro lc' e he ht
    by_cases hne' : lc'.fills = []
    · rw [detectEventsForLifecycle, if_pos hne'] at he
      simp at he
    · rw [detectEventsForLifecycle, if_neg hne'] at he
      simp only [detectCore] at he
      cases hs : sortByTs (recomputeLC lc').fills with
      | nil => rw [hs] at he; simp at he
      | cons g0 grest =>
        rw [hs] at he
        simp only [List.mem_append] at he
        rcases he with ((((h1 | h2) | h3) | h4) | h5) | h6
        · rw [mem_openCompletedEvents_type h1] at ht; exact absurd ht (by simp)
        · rw [mem_closeCompletedEvents_type h2] at ht; exact absurd ht (by simp)
        · rw [mem_stopLossEvents_type h3] at ht; exact absurd ht (by simp)
        · rw [mem_bigLossEvents_type h4] at ht; exact absurd ht (by simp)
        · rw [mem_highLeverageEvents_type h5] at ht; exact absurd ht (by simp)
        · rw [nightTradingEvents_tzNone] at h6; simp at h6
  · simp +decide [detectEventsForLifecycle, detectCore, recomputeLC, computeMetrics,
      sortByTs, insertByTs, posStep, PosState.init, maxNotional,
      wavg_price_by_trade_side, totalFees, totalFunding, TradeMetrics.default0,
      openCompletedEvents, closeCompletedEvents, stopLossEvents, bigLossEvents,
      highLeverageEvents, nightTradingEvents, orDecimal, baseBalanceSource,
      stopCross, fillRef, tzSix, defaultNightWindow, lcNight, nightFill]
  · intro e he ht
    revert he
    simp +decide [detectEventsForLifecycle, detectCore, recomputeLC, computeMetrics,
      sortByTs, insertByTs, posStep, PosState.init, maxNotional,
      wavg_price_by_trade_side, totalFees, totalFunding, TradeMetrics.default0,
      openCompletedEvents, closeCompletedEvents, stopLossEvents, bigLossEvents,
      highLeverageEvents, nightTradingEvents, orDecimal, baseBalanceSource,
      stopCross, fillRef, tzSixOhOne, defaultNightWindow, lcNight, nightFill]
    intro he
    rw [he] at ht
    exact absurd ht (by simp)

/-- C7 witness: the night-window theorem's firing characterization applied to
the concrete 06:00 boundary lifecycle. -/
theorem night_trading_window_rule_witness :
    (∃ e ∈ detectEventsForLifecycle tzSix 5 10 defaultNightWindow lcNight,
        e.event_type = TradeEventType.night_trading_us_eastern)
      ↔ ∃ h m : Nat, tzSix nightFill.ts = some (h, m)
          ∧ ((22 < h ∨ (h = 22 ∧ 0 ≤ m)) ∨ (h < 6 ∨ (h = 6 ∧ m ≤ 0))) :=
  (night_trading_window_rule tzSix 5 10 lcNight nightFill []
    (by simp [lcNight]) rfl).1

/-! ## C5 — the batch consecutive-losses rule -/

/-- The per-lifecycle detector never emits a `consecutive_losses` event (the
rule is batch-only). -/
theorem detect_no_consecutive (tz : Int → Option (Nat × Nat)) (b l : ℚ)
    (w : (Nat × Nat) × (Nat × Nat)) (lc : TradeLifecycle) :
    ∀ e ∈ detectEventsForLifecycle tz b l w lc,
      e.event_type ≠ TradeEventType.consecutive_losses := by
  intro e he ht
  by_cases hne : lc.fills = []
  · rw [detectEventsForLifecycle, if_pos hne] at he
    simp at he
  · rw [detectEventsForLifecycle, if_neg hne] at he
    simp only [detectCore] at he
    cases hs : sortByTs (recomputeLC lc).fills with
    | nil => rw [hs] at he; simp at he
    | cons g0 grest =>
      rw [hs] at he
      simp only [List.mem_append] at he
      rcases he with ((((h1 | h2) | h3) | h4) | h5) | h6
      · rw [mem_openCompletedEvents_type h1] at ht; exact absurd ht (by simp)
      · rw [mem_closeCompletedEvents_type h2] at ht; exact absurd ht (by simp)
      · rw [mem_stopLossEvents_type h3] at ht; exact absurd ht (by simp)
      · rw [mem_bigLossEvents_type h4] at ht; exact absurd ht (by simp)
      · rw [mem_highLeverageEvents_type h5] at ht; exact absurd ht (by simp)
      · rw [mem_nightTradingEvents_type h6] at ht; exact absurd ht (by simp)

/-- Events from the consecutive-losses rule have that type. -/
theorem mem_consecutiveLossEvents_type {n : Nat} {lcs2 : List TradeLifecycle}
    {e : TradeEvent} (h : e ∈ consecutiveLossEvents n lcs2) :
    e.event_type = TradeEventType.consecutive_losses := by
  simp only [consecutiveLossEvents] at h
  split at h
  · split at h
    · split at h
      · simp only [List.mem_singleton] at h
        subst h
        rfl
      · exact absurd h (by simp)
    · exact absurd h (by simp)
  · exact absurd h (by simp)

/-- The consecutive-losses rule emits at most one event. -/
theorem consecutiveLossEvents_length_le (n : Nat) (lcs2 : List TradeLifecycle) :
    (consecutiveLossEvents n lcs2).length ≤ 1 := by
  simp only [consecutiveLossEvents]
  split
  · split
    · split <;> simp
    · simp
  · simp

/-- A closed one-fill lifecycle with exit timestamp `i` and exchange-reported
profit `pnl` (concrete input maker for the consecutive-losses examples). -/
def lcP (i : Int) (pnl : ℚ) : TradeLifecycle :=
  { lifecycle_id := "lcp" ++ toString i, symbol := "BTC/USDT:USDT",
    position_side := PositionSide.long,
    fills := [{ ts := i, side := Side.buy, price := 1, amount := 1,
                reported_profit_usdt := some pnl }],
    status := Status.closed }

/-- C5 (amended): the batch detector emits at most one `consecutive_losses`
event, and — provided the window size is at least 2 (the code's `n ≥ 2`
guard, which the original claim omits) — it emits one exactly when, among the
(recomputed) lifecycles with known exit timestamp and known realized PnL
sorted ascending by exit time, there are at least `n` entries and the last
`n` all have negative PnL; the spec's examples behave as stated. -/
theorem consecutive_losses_batch (tz : Int → Option (Nat × Nat)) (b l : ℚ)
    (w : (Nat × Nat) × (Nat × Nat)) (n : Nat) (lcs : List TradeLifecycle) :
    ((detectEventsForLifecycles tz b n l w lcs).countP
        (fun e => e.event_type == TradeEventType.consecutive_losses) ≤ 1)
    ∧ ((∃ e ∈ detectEventsForLifecycles tz b n l w lcs,
          e.event_type = TradeEventType.consecutive_losses)
        ↔ (2 ≤ n
            ∧ n ≤ (closedSortedOf ((lcs.map recomputeLC).map recomputeIfFills)).length
            ∧ ∀ lc ∈ (closedSortedOf ((lcs.map recomputeLC).map recomputeIfFills)).drop
                ((closedSortedOf ((lcs.map recomputeLC).map recomputeIfFills)).length - n),
                lc.metrics.realized_pnl_usdt.getD 0 < 0)) := by
  have hout : ∀ e ∈ (lcs.map recomputeLC).flatMap
      (detectEventsForLifecycle tz b l w),
      e.event_type ≠ TradeEventType.consecutive_losses := by
    intro e he
    obtain ⟨a, -, hea⟩ := List.mem_flatMap.mp he
    exact detect_no_consecutive tz b l w a e hea
  constructor
  · simp only [detectEventsForLifecycles]
    rw [List.countP_append]
    rw [List.countP_eq_zero.mpr (fun a ha => by simpa using hout a ha)]
    rw [zero_add]
    exact le_trans (List.countP_le_length _) (consecutiveLossEvents_length_le _ _)
  · constructor
    · rintro ⟨e, he, ht⟩
      simp only [detectEventsForLifecycles] at he
      rcases List.mem_append.mp he with h1 | h2
      · exact absurd ht (hout e h1)
      · simp only [consecutiveLossEvents] at h2
        split at h2
        case isTrue hcond =>
          split at h2
          case isTrue hall =>
            refine ⟨hcond.1, hcond.2, ?_⟩
            intro lc hlc
            have := List.all_eq_true.mp hall lc hlc
            simpa using this
          case isFalse => exact absurd h2 (by simp)
        case isFalse => exact absurd h2 (by simp)
    · rintro ⟨h2n, hlen, hall⟩
      have hwne : (closedSortedOf ((lcs.map recomputeLC).map recomputeIfFills)).drop
          ((closedSortedOf ((lcs.map recomputeLC).map recomputeIfFills)).length - n) ≠ [] := by
        intro h0
        have hl := congrArg List.length h0
        rw [List.length_drop] at hl
        simp only [List.length_nil] at hl
        omega
      obtain ⟨last, hlast⟩ :=
        Option.isSome_iff_exists.mp (List.getLast?_isSome.mpr hwne)
      have hne2 : consecutiveLossEvents n
          ((lcs.map recomputeLC).map recomputeIfFills) ≠ [] := by
        simp only [consecutiveLossEvents]
        rw [if_pos ⟨h2n, hlen⟩,
          if_pos (List.all_eq_true.mpr (fun lc hlc => decide_eq_true (hall lc hlc))),
          hlast]
        simp
      obtain ⟨e, he⟩ := List.exists_mem_of_ne_nil _ hne2
      refine ⟨e, ?_, mem_consecutiveLossEvents_type he⟩
      simp only [detectEventsForLifecycles]
      exact List.mem_append.mpr (Or.inr he)

/-- C5 witness: the batch theorem applied to the spec's two examples — the
final three `[-1, -2, -3]` fire the rule; `[-1, -2, -3, +1, -4]` with N = 3
does not (its last three PnLs are `[-3, +1, -4]`). -/
theorem consecutive_losses_batch_witness :
    (∃ e ∈ detectEventsForLifecycles tzNone 5 3 10 defaultNightWindow
        [lcP 1 (-1), lcP 2 (-2), lcP 3 (-3)],
      e.event_type = TradeEventType.consecutive_losses)
    ∧ ¬(∃ e ∈ detectEventsForLifecycles tzNone 5 3 10 defaultNightWindow
        [lcP 1 (-1), lcP 2 (-2), lcP 3 (-3), lcP 4 1, lcP 5 (-4)],
      e.event_type = TradeEventType.consecutive_losses) := by
  constructor
  · refine (consecutive_losses_batch tzNone 5 10 defaultNightWindow 3
      [lcP 1 (-1), lcP 2 (-2), lcP 3 (-3)]).2.mpr ⟨by norm_num, ?_, ?_⟩ <;>
      simp +decide [closedSortedOf, sortByExit, insertByExit, recomputeIfFills,
        recomputeLC, computeMetrics, sortByTs, insertByTs, posStep, PosState.init,
        maxNotional, wavg_price_by_trade_side, totalFees, totalFunding,
        TradeMetrics.default0, lcP]
  · intro hex
    have hc := (consecutive_losses_batch tzNone 5 10 defaultNightWindow 3
      [lcP 1 (-1), lcP 2 (-2), lcP 3 (-3), lcP 4 1, lcP 5 (-4)]).2.mp hex
    revert hc
    simp +decide [closedSortedOf, sortByExit, insertByExit, recomputeIfFills,
      recomputeLC, computeMetrics, sortByTs, insertByTs, posStep, PosState.init,
      maxNotional, wavg_price_by_trade_side, totalFees, totalFunding,
      TradeMetrics.default0, lcP]

/-- C5 counterexample (to the claim as stated, quantified over every window
size N): with N = 1 and a single closed lifecycle of negative PnL, the last
N entries of the exit-ordered pool are all losses — the claim says the event
fires — yet the detector emits nothing, because the code requires `n ≥ 2`. -/
theorem consecutive_losses_n1_cex :
    (1 ≤ (closedSortedOf (([lcP 1 (-1)].map recomputeLC).map recomputeIfFills)).length
      ∧ ∀ lc ∈ (closedSortedOf (([lcP 1 (-1)].map recomputeLC).map recomputeIfFills)).drop
          ((closedSortedOf (([lcP 1 (-1)].map recomputeLC).map recomputeIfFills)).length - 1),
          lc.metrics.realized_pnl_usdt.getD 0 < 0)
    ∧ ∀ e ∈ detectEventsForLifecycles tzNone 5 1 10 defaultNightWindow [lcP 1 (-1)],
        e.event_type ≠ TradeEventType.consecutive_losses := by
  constructor
  · constructor <;>
      simp +decide [closedSortedOf, sortByExit, insertByExit, recomputeIfFills,
        recomputeLC, computeMetrics, sortByTs, insertByTs, posStep, PosState.init,
        maxNotional, wavg_price_by_trade_side, totalFees, totalFunding,
        TradeMetrics.default0, lcP]
  · intro e he ht
    simp only [detectEventsForLifecycles] at he
    rcases List.mem_append.mp he with h1 | h2
    · obtain ⟨a, -, hea⟩ := List.mem_flatMap.mp h1
      exact absurd ht (detect_no_consecutive _ _ _ _ a e hea)
    · simp only [consecutiveLossEvents] at h2
      rw [if_neg (by rintro ⟨hb, -⟩; omega)] at h2
      simp at h2
